import Mathlib

/-!
Shallow embedding of the websocket-server session/topic membership engine.

Connections (Bun ServerWebSocket handles) are modelled as natural numbers;
user ids, chat ids and message ids as strings.  A JavaScript Map is modelled
as an association list in insertion order (set on an existing key replaces the
value in place, set on a fresh key appends); a JavaScript Set is a duplicate
free list in insertion order.  setTimeout handles are modelled by a pool of
pending timers carried in the server state together with a fresh-id counter;
clearTimeout removes a timer from the pool by id.  Downstream HTTP calls are
modelled by oracle parameters giving the outcome of each call.
-/

/-- Lookup in a JS Map modelled as an association list (first match). -/
def mget {α β : Type} [DecidableEq α] : List (α × β) → α → Option β
  | [], _ => none
  | p :: rest, k => if p.1 = k then some p.2 else mget rest k

/-- JS Map.has. -/
def mhas {α β : Type} [DecidableEq α] (m : List (α × β)) (k : α) : Bool :=
  (mget m k).isSome

/-- JS Map.set: replace the entry in place when the key is present (a JS Map
holds at most one entry per key), append otherwise. -/
def mset {α β : Type} [DecidableEq α] : List (α × β) → α → β → List (α × β)
  | [], k, v => [(k, v)]
  | p :: rest, k, v => if p.1 = k then (k, v) :: rest else p :: mset rest k v

/-- JS Map.delete. -/
def mdel {α β : Type} [DecidableEq α] : List (α × β) → α → List (α × β)
  | [], _ => []
  | p :: rest, k => if p.1 = k then mdel rest k else p :: mdel rest k

/-- JS Map.values as a list. -/
def mvalues {α β : Type} (m : List (α × β)) : List β :=
  m.map (fun p => p.2)

/-- JS Set.add: append when absent, keep otherwise. -/
def setAdd {α : Type} [DecidableEq α] (l : List α) (x : α) : List α :=
  if x ∈ l then l else l ++ [x]

/-- JS Set construction (new Set(array)): first-occurrence deduplication. -/
def dedupFirst {α : Type} [DecidableEq α] (l : List α) : List α :=
  l.foldl setAdd []

deriving instance DecidableEq for Except

/-- State of RoomManagerImpl (room-manager.ts): rooms maps a chatId to the set
of member connections, wsRooms maps a connection to the set of chatIds it is
in, kept for O(own rooms) cleanup. -/
structure RoomState where
  rooms : List (String × List Nat)
  wsRooms : List (Nat × List String)
deriving DecidableEq, Repr

/-- Member list of a room (empty when the room does not exist). -/
def roomMembers (rm : RoomState) (c : String) : List Nat :=
  (mget rm.rooms c).getD []

/-- ChatIds a connection is registered in on the wsRooms side. -/
def wsRoomsOf (rm : RoomState) (ws : Nat) : List String :=
  (mget rm.wsRooms ws).getD []

/-- RoomManagerImpl.joinRoom: lazily create the room set, add the connection,
and record the room in the wsRooms reverse index. -/
def joinRoom (c : String) (ws : Nat) (rm : RoomState) : RoomState :=
  let rooms1 := if mhas rm.rooms c then rm.rooms else mset rm.rooms c []
  let rooms2 := mset rooms1 c (setAdd ((mget rooms1 c).getD []) ws)
  let wsr1 := if mhas rm.wsRooms ws then rm.wsRooms else mset rm.wsRooms ws []
  let wsr2 := mset wsr1 ws (setAdd ((mget wsr1 ws).getD []) c)
  ⟨rooms2, wsr2⟩

/-- RoomManagerImpl.leaveRoom: drop the connection from the room, delete the
room when it becomes empty, and mirror both steps on the wsRooms index. -/
def leaveRoom (c : String) (ws : Nat) (rm : RoomState) : RoomState :=
  let rooms1 :=
    match mget rm.rooms c with
    | none => rm.rooms
    | some l =>
      let l2 := l.erase ws
      if l2 = [] then mdel rm.rooms c else mset rm.rooms c l2
  let wsr1 :=
    match mget rm.wsRooms ws with
    | none => rm.wsRooms
    | some cl =>
      let cl2 := cl.erase c
      if cl2 = [] then mdel rm.wsRooms ws else mset rm.wsRooms ws cl2
  ⟨rooms1, wsr1⟩

/-- One room update step of RoomManagerImpl.leaveAllRooms: remove the
connection from the member set of one room, pruning the room if emptied. -/
def roomDrop (rs : List (String × List Nat)) (c : String) (ws : Nat) :
    List (String × List Nat) :=
  match mget rs c with
  | none => rs
  | some l =>
    let l2 := l.erase ws
    if l2 = [] then mdel rs c else mset rs c l2

/-- RoomManagerImpl.leaveAllRooms: walk the wsRooms entry of the connection,
drop it from each of those rooms, then delete the wsRooms entry. -/
def leaveAllRooms (ws : Nat) (rm : RoomState) : RoomState :=
  match mget rm.wsRooms ws with
  | none => rm
  | some cl => ⟨cl.foldl (fun rs c => roomDrop rs c ws) rm.rooms, mdel rm.wsRooms ws⟩

/-- RoomManagerImpl.broadcastToRoom: deliver the payload to every member of
the room in insertion order, skipping the excluded connection when one is
given.  The result lists the deliveries performed (connection, payload). -/
def broadcastToRoom {μ : Type} (c : String) (msg : μ) (excludeWs : Option Nat)
    (rm : RoomState) : List (Nat × μ) :=
  match mget rm.rooms c with
  | none => []
  | some l => (l.filter (fun w => ¬ excludeWs = some w)).map (fun w => (w, msg))

/-- RoomManagerImpl.getRoomParticipants. -/
def getRoomParticipants (rm : RoomState) (c : String) : List Nat :=
  roomMembers rm c

/-- RoomManagerImpl.getRoomCount. -/
def getRoomCount (rm : RoomState) (c : String) : Nat :=
  (roomMembers rm c).length

/-- ConnectedUser record (types/user.ts): one per live connection, created at
connection-open.  typingTimers maps a chatId to the id of the scheduled
setTimeout handle for the typing indicator of that chat. -/
structure ConnectedUser where
  userId : String
  userName : String
  email : String
  role : String
  ws : Nat
  token : String
  chatRooms : List String
  connectedAt : Nat
  typingTimers : List (String × Nat)
deriving DecidableEq, Repr

/-- State of PresenceService (presence.ts): the identity directory and the
reverse connection index. -/
structure PresenceState where
  connectedUsers : List (String × ConnectedUser)
  wsToUserId : List (Nat × String)
deriving DecidableEq, Repr

/-- A scheduled typing-expiry timeout.  The fields record what the setTimeout
closure in handleChatTyping captured: the originating connection, the user id
and name at scheduling time, and the chat the indicator belongs to. -/
structure Timer where
  id : Nat
  owner : Nat
  userId : String
  userName : String
  chatId : String
deriving DecidableEq, Repr

/-- Whole-server state: room manager, presence service, and the pool of
scheduled-but-not-yet-fired timeouts with a fresh-id counter. -/
structure ServerState where
  room : RoomState
  pres : PresenceState
  pending : List Timer
  nextTimerId : Nat
deriving DecidableEq, Repr

/-- Empty server state at process start. -/
def initState : ServerState :=
  ⟨⟨[], []⟩, ⟨[], []⟩, [], 0⟩

/-- clearTimeout on a timer id: the timer is removed from the pending pool if
it has neither fired nor been cleared yet, otherwise nothing happens. -/
def clearTimeout (pending : List Timer) (tid : Nat) : List Timer :=
  pending.filter (fun t => ¬ t.id = tid)

/-- PresenceService.addUser: register the user under its id (overwriting any
entry for the same id) and index the connection. -/
def addUser (u : ConnectedUser) (s : ServerState) : ServerState :=
  { s with pres := ⟨mset s.pres.connectedUsers u.userId u,
                    mset s.pres.wsToUserId u.ws u.userId⟩ }

/-- PresenceService.removeUser: resolve the connection to a user id, and when
a user record is found clear every typing timeout it holds and drop both
directory entries.  Returns the removed record, if any. -/
def removeUser (ws : Nat) (s : ServerState) : Option ConnectedUser × ServerState :=
  match mget s.pres.wsToUserId ws with
  | none => (none, s)
  | some uid =>
    match mget s.pres.connectedUsers uid with
    | none => (none, s)
    | some u =>
      (some u,
       { s with
         pres := ⟨mdel s.pres.connectedUsers uid, mdel s.pres.wsToUserId ws⟩
         pending := (mvalues u.typingTimers).foldl clearTimeout s.pending })

/-- PresenceService.getUserByWs. -/
def getUserByWs (s : ServerState) (ws : Nat) : Option ConnectedUser :=
  match mget s.pres.wsToUserId ws with
  | none => none
  | some uid => mget s.pres.connectedUsers uid

/-- PresenceService.getUser. -/
def getUser (s : ServerState) (uid : String) : Option ConnectedUser :=
  mget s.pres.connectedUsers uid

/-- PresenceService.isUserOnline. -/
def isUserOnline (s : ServerState) (uid : String) : Bool :=
  mhas s.pres.connectedUsers uid

/-- PresenceService.setTypingTimer: when the user exists, clear any previous
timeout recorded for the chat and record the new timer id. -/
def setTypingTimer (uid : String) (c : String) (tid : Nat) (s : ServerState) :
    ServerState :=
  match mget s.pres.connectedUsers uid with
  | none => s
  | some u =>
    let pending1 :=
      match mget u.typingTimers c with
      | none => s.pending
      | some old => clearTimeout s.pending old
    { s with
      pres := ⟨mset s.pres.connectedUsers uid
                 { u with typingTimers := mset u.typingTimers c tid },
               s.pres.wsToUserId⟩
      pending := pending1 }

/-- PresenceService.clearTypingTimer: when the user exists and has a timeout
recorded for the chat, clear it and drop the record. -/
def clearTypingTimer (uid : String) (c : String) (s : ServerState) : ServerState :=
  match mget s.pres.connectedUsers uid with
  | none => s
  | some u =>
    match mget u.typingTimers c with
    | none => s
    | some tid =>
      { s with
        pres := ⟨mset s.pres.connectedUsers uid
                   { u with typingTimers := mdel u.typingTimers c },
                 s.pres.wsToUserId⟩
        pending := clearTimeout s.pending tid }

/-- Canonical message record returned by the storage collaborator for
create-message (types/chat.ts Message). -/
structure MessageRec where
  id : String
  chatId : String
  senderId : String
  senderName : String
  content : String
  createdAt : String
deriving DecidableEq, Repr

/-- Outbound frame payloads (types/websocket.ts, server to client).  Error
frames carry the code and message of the error payload. -/
inductive OutMsg where
  | connected (userId : String) (chatIds : List String)
  | chatMessage (chatId : String) (message : MessageRec)
  | chatRead (chatId : String) (messageId : String) (userId : String) (readAt : String)
  | chatTyping (chatId : String) (userId : String) (userName : String) (isTyping : Bool)
  | userOnline (userId : String) (online : Bool)
  | pong (timestamp : String)
  | errorMsg (code : String) (message : String)
deriving DecidableEq, Repr

/-- Data of an HttpError thrown by the HTTP client (utils/errors.ts): its
code is always HTTP_ERROR; statusCode is present for non-ok responses and
absent for the retries-exhausted error; detail abstracts the details payload
(the originalError message for the retries-exhausted error). -/
structure HttpFailure where
  statusCode : Option Nat
  message : String
  detail : Option String
deriving DecidableEq, Repr

/-- Outcome of one fetch attempt inside makeRequest (http-client.ts):
a parsed ok response, a non-ok response with its HTTP status (which the code
turns into an HttpError carrying that statusCode), or a network or timeout
failure in which fetch itself throws. -/
inductive Attempt (T : Type) where
  | success (v : T)
  | httpStatus (status : Nat) (msg : String)
  | netFail (msg : String)

/-- Observable outcome of makeRequest: the returned or thrown result, the
number of fetch attempts performed, and the backoff delays slept between
attempts in order. -/
structure ReqOutcome (T : Type) where
  result : Except HttpFailure T
  attemptsUsed : Nat
  delays : List Nat
deriving Repr

/-- Exponential backoff delay of http-client.ts:
Math.min(1000 * Math.pow(2, attempt), 5000). -/
def backoffDelay (attempt : Nat) : Nat :=
  min (1000 * 2 ^ attempt) 5000

/-- HttpFailure for a non-ok response of the given status. -/
def httpFail (status : Nat) (msg : String) : HttpFailure :=
  ⟨some status, msg, none⟩

/-- HttpFailure thrown after all retries are exhausted, carrying the message
of the last observed error as its originalError detail. -/
def exhaustedFail (last : Option HttpFailure) : HttpFailure :=
  ⟨none, "Request failed after retries", last.map (fun e => e.message)⟩

/-- Retry loop of makeRequest.  The oracle f gives the outcome of the fetch
on each attempt index; remaining counts the attempts still allowed, so that
remaining = 1 models the attempt === retries - 1 exit of the loop.  A thrown
HttpError whose statusCode is truthy and below 500 is rethrown immediately
(the do-not-retry-on-4xx rule); every other failure is retried after the
backoff delay until attempts run out. -/
def makeRequestAux {T : Type} (f : Nat → Attempt T) :
    Nat → Nat → Option HttpFailure → ReqOutcome T
  | 0, _, last => ⟨.error (exhaustedFail last), 0, []⟩
  | remaining + 1, attempt, _ =>
    match f attempt with
    | .success v => ⟨.ok v, attempt + 1, []⟩
    | .httpStatus status msg =>
      let e := httpFail status msg
      if ¬ status = 0 ∧ status < 500 then ⟨.error e, attempt + 1, []⟩
      else if remaining = 0 then ⟨.error (exhaustedFail (some e)), attempt + 1, []⟩
      else
        let r := makeRequestAux f remaining (attempt + 1) (some e)
        ⟨r.result, r.attemptsUsed, backoffDelay attempt :: r.delays⟩
    | .netFail msg =>
      let e : HttpFailure := ⟨none, msg, none⟩
      if remaining = 0 then ⟨.error (exhaustedFail (some e)), attempt + 1, []⟩
      else
        let r := makeRequestAux f remaining (attempt + 1) (some e)
        ⟨r.result, r.attemptsUsed, backoffDelay attempt :: r.delays⟩

/-- makeRequest of http-client.ts with its attempt budget (default 3),
abstracted over the per-attempt fetch outcome oracle. -/
def makeRequest {T : Type} (f : Nat → Attempt T) (retries : Nat) :
    ReqOutcome T :=
  makeRequestAux f retries 0 none

/-- Errors thrown by the event handlers (utils/errors.ts).  The generic case
models a plain Error that is not a WebSocketError, such as the
User-not-found-in-presence-service throw. -/
inductive WsErr where
  | validation (msg : String)
  | notParticipant (msg : String)
  | httpErr (e : HttpFailure)
  | generic (msg : String)
deriving DecidableEq, Repr

/-- Error code of the error classes in utils/errors.ts. -/
def errCode : WsErr → String
  | .validation _ => "VALIDATION_ERROR"
  | .notParticipant _ => "NOT_PARTICIPANT"
  | .httpErr _ => "HTTP_ERROR"
  | .generic _ => "INTERNAL_ERROR"

/-- Error message put in the error frame by the catch in index.ts
handleMessage: WebSocketError instances surface their own message, anything
else becomes the generic internal-error text. -/
def errText : WsErr → String
  | .validation m => m
  | .notParticipant m => m
  | .httpErr e => e.message
  | .generic _ => "An internal error occurred"

/-- Lift the outcome of an HTTP client call into a handler error, matching
that a failed makeRequest throws an HttpError. -/
def liftHttp {T : Type} : Except HttpFailure T → Except WsErr T
  | .ok v => .ok v
  | .error e => .error (.httpErr e)

/-- Result of one handler run on the success path: deliveries performed (in
order) and the resulting server state. -/
abbrev HandlerOk := List (Nat × OutMsg) × ServerState

/-- Payload of a chat:message frame.  The JavaScript falsy-or-wrong-type
checks on a field are modelled by the empty string. -/
structure ChatMessagePayload where
  chatId : String
  content : String
deriving DecidableEq, Repr

/-- Payload of a chat:read frame. -/
structure ChatReadPayload where
  chatId : String
  messageId : String
deriving DecidableEq, Repr

/-- Payload of a chat:typing frame. -/
structure ChatTypingPayload where
  chatId : String
  isTyping : Bool
deriving DecidableEq, Repr

/-- handleChatMessage (handlers/message.ts).  The persist oracle is the
outcome of httpClient.sendMessage, the call that persists the message and
returns the canonical record.  On success the canonical record is broadcast
to every room member except the sender; every failure is thrown and leaves
the state untouched. -/
def handleChatMessage (ws : Nat) (p : ChatMessagePayload)
    (persist : Except HttpFailure MessageRec) (s : ServerState) :
    Except WsErr HandlerOk :=
  match getUserByWs s ws with
  | none => .error (.generic "User not found in presence service")
  | some user =>
    if p.chatId = "" then .error (.validation "Invalid chatId")
    else if p.content = "" then .error (.validation "Invalid message content")
    else if ¬ p.chatId ∈ user.chatRooms then
      .error (.notParticipant "You are not a participant in this chat")
    else
      match liftHttp persist with
      | .error e => .error e
      | .ok rec1 =>
        .ok (broadcastToRoom p.chatId (OutMsg.chatMessage p.chatId rec1) (some ws) s.room, s)

/-- handleChatRead (handlers/read.ts).  The persist oracle is the outcome of
httpClient.markMessageAsRead; now is the readAt timestamp taken at broadcast
time.  Note that the source passes ws as the excludeWs argument of
broadcastToRoom, so the originating connection is excluded from the
read-receipt broadcast. -/
def handleChatRead (ws : Nat) (p : ChatReadPayload)
    (persist : Except HttpFailure Unit) (now : String) (s : ServerState) :
    Except WsErr HandlerOk :=
  match getUserByWs s ws with
  | none => .error (.generic "User not found in presence service")
  | some user =>
    if p.chatId = "" then .error (.validation "Invalid chatId")
    else if p.messageId = "" then .error (.validation "Invalid messageId")
    else if ¬ p.chatId ∈ user.chatRooms then
      .error (.notParticipant "You are not a participant in this chat")
    else
      match liftHttp persist with
      | .error e => .error e
      | .ok _ =>
        .ok (broadcastToRoom p.chatId
               (OutMsg.chatRead p.chatId p.messageId user.userId now) (some ws) s.room, s)

/-- handleChatTyping (handlers/typing.ts).  Broadcasts the indicator to every
room member except the sender; a true flag then clears any previous timeout
for the (identity, chat) pair and schedules a fresh expiry timeout whose
closure captures the sender connection and identity; a false flag clears any
pending timeout. -/
def handleChatTyping (ws : Nat) (p : ChatTypingPayload) (s : ServerState) :
    Except WsErr HandlerOk :=
  match getUserByWs s ws with
  | none => .error (.generic "User not found in presence service")
  | some user =>
    if p.chatId = "" then .error (.validation "Invalid chatId")
    else if ¬ p.chatId ∈ user.chatRooms then
      .error (.notParticipant "You are not a participant in this chat")
    else
      let sends := broadcastToRoom p.chatId
        (OutMsg.chatTyping p.chatId user.userId user.userName p.isTyping) (some ws) s.room
      if p.isTyping then
        let s1 := clearTypingTimer user.userId p.chatId s
        let t : Timer := ⟨s1.nextTimerId, ws, user.userId, user.userName, p.chatId⟩
        let s2 := { s1 with pending := s1.pending ++ [t], nextTimerId := s1.nextTimerId + 1 }
        .ok (sends, setTypingTimer user.userId p.chatId t.id s2)
      else
        .ok (sends, clearTypingTimer user.userId p.chatId s)

/-- handlePing (handlers/connection.ts): reply to the sender only with a
timestamped pong. -/
def handlePing (ws : Nat) (now : String) (s : ServerState) : HandlerOk :=
  ([(ws, OutMsg.pong now)], s)

/-- Expiry of a scheduled typing timeout: the runtime removes the timer from
the pending pool and runs the setTimeout callback of handleChatTyping, which
broadcasts a synthetic stopped-typing event to the room, excluding the
captured originating connection, with no further check of any kind. -/
def fireTimer (t : Timer) (s : ServerState) : List (Nat × OutMsg) × ServerState :=
  (broadcastToRoom t.chatId (OutMsg.chatTyping t.chatId t.userId t.userName false)
     (some t.owner) s.room,
   { s with pending := s.pending.filter (fun t2 => ¬ t2.id = t.id) })

/-- Parse outcome of an inbound frame after JSON.parse and the
type-dispatch switch of index.ts.  badType models an envelope whose type
field is missing or not a string; unknown models an unrecognized type. -/
inductive ParsedFrame where
  | chatMessage (p : ChatMessagePayload)
  | chatRead (p : ChatReadPayload)
  | chatTyping (p : ChatTypingPayload)
  | ping
  | badType
  | unknown (ty : String)
deriving DecidableEq, Repr

/-- An inbound frame as observed by index.ts handleMessage: charLen is
messageStr.length, the number of UTF-16 code units of the decoded text (the
quantity the size check reads); byteLen is the byte length of the raw frame
on the wire (UTF-8), recorded for comparison with the spec; parsed is the
JSON.parse outcome, none meaning the text is not valid JSON. -/
structure RawFrame where
  charLen : Nat
  byteLen : Nat
  parsed : Option ParsedFrame
deriving DecidableEq, Repr

/-- Downstream call outcomes available to one frame dispatch: the
create-message persistence call and the mark-read persistence call. -/
structure Downstream where
  sendMessageResult : Except HttpFailure MessageRec
  markReadResult : Except HttpFailure Unit

/-- Observable result of handleMessage on one frame: deliveries performed,
resulting state, and whether a JSON parse of the frame was attempted. -/
structure HandleResult where
  sends : List (Nat × OutMsg)
  state : ServerState
  parseTried : Bool
deriving DecidableEq, Repr

/-- handleMessage (index.ts): size-check the decoded text before parsing,
then parse, validate the envelope type, and dispatch to the per-event
handlers; a thrown handler error is caught and turned into a single error
frame to the sender, leaving the state unchanged. -/
def handleMessage (maxMessageSize : Nat) (ws : Nat) (frame : RawFrame)
    (ds : Downstream) (now : String) (s : ServerState) : HandleResult :=
  if frame.charLen > maxMessageSize then
    ⟨[(ws, OutMsg.errorMsg "VALIDATION_ERROR" "Message too large")], s, false⟩
  else
    match frame.parsed with
    | none => ⟨[(ws, OutMsg.errorMsg "INVALID_MESSAGE" "Invalid JSON format")], s, true⟩
    | some pf =>
      match pf with
      | .badType =>
        ⟨[(ws, OutMsg.errorMsg "INVALID_MESSAGE" "Missing or invalid message type")], s, true⟩
      | .unknown ty =>
        ⟨[(ws, OutMsg.errorMsg "INVALID_MESSAGE" ("Unknown message type: " ++ ty))], s, true⟩
      | .ping =>
        let r := handlePing ws now s
        ⟨r.1, r.2, true⟩
      | .chatMessage p =>
        match handleChatMessage ws p ds.sendMessageResult s with
        | .ok r => ⟨r.1, r.2, true⟩
        | .error e => ⟨[(ws, OutMsg.errorMsg (errCode e) (errText e))], s, true⟩
      | .chatRead p =>
        match handleChatRead ws p ds.markReadResult now s with
        | .ok r => ⟨r.1, r.2, true⟩
        | .error e => ⟨[(ws, OutMsg.errorMsg (errCode e) (errText e))], s, true⟩
      | .chatTyping p =>
        match handleChatTyping ws p s with
        | .ok r => ⟨r.1, r.2, true⟩
        | .error e => ⟨[(ws, OutMsg.errorMsg (errCode e) (errText e))], s, true⟩

/-- Loop body of PresenceService.broadcastPresence: walk the chatId list,
broadcasting the presence frame to each room not already handled, tracking
handled rooms in the broadcastedRooms set. -/
def broadcastPresenceGo (msg : OutMsg) (rm : RoomState) :
    List String → List String → List (Nat × OutMsg)
  | [], _ => []
  | c :: rest, seen =>
    if c ∈ seen then broadcastPresenceGo msg rm rest seen
    else broadcastToRoom c msg none rm ++ broadcastPresenceGo msg rm rest (setAdd seen c)

/-- PresenceService.broadcastPresence: broadcast a user:online frame to every
room in the list, with no exclusion, deduplicating repeated chatIds through
the broadcastedRooms set. -/
def broadcastPresence (uid : String) (online : Bool) (chatIds : List String)
    (rm : RoomState) : List (Nat × OutMsg) :=
  broadcastPresenceGo (OutMsg.userOnline uid online) rm chatIds []

/-- handleConnection (handlers/connection.ts), success path: after the
profile is fetched, the chat list fetch outcome (getChats through
makeRequest) either yields the chat ids or is swallowed leaving an empty
list; the user record is registered, every listed chat is joined, presence
is announced to all joined rooms, and the connected acknowledgement is sent.
The auth-failure paths mutate no server state and are not modelled. -/
def handleConnection (ws : Nat) (userId userName email role token : String)
    (chats : Except HttpFailure (List String)) (connectedAt : Nat)
    (s : ServerState) : List (Nat × OutMsg) × ServerState :=
  let chatIds := match chats with | .ok ids => ids | .error _ => []
  let u : ConnectedUser :=
    ⟨userId, userName, email, role, ws, token, dedupFirst chatIds, connectedAt, []⟩
  let s1 := addUser u s
  let s2 := chatIds.foldl (fun st c => { st with room := joinRoom c ws st.room }) s1
  (broadcastPresence userId true chatIds s2.room ++ [(ws, OutMsg.connected userId chatIds)],
   s2)

/-- handleDisconnection (handlers/connection.ts): when the connection still
resolves to a user, capture its chat list, remove it from the presence
directory (clearing its typing timeouts), leave every room, and announce
offline to the captured chat list. -/
def handleDisconnection (ws : Nat) (s : ServerState) : List (Nat × OutMsg) × ServerState :=
  match getUserByWs s ws with
  | none => ([], s)
  | some user =>
    let chatIds := user.chatRooms
    let s1 := (removeUser ws s).2
    let s2 := { s1 with room := leaveAllRooms ws s1.room }
    (broadcastPresence user.userId false chatIds s2.room, s2)

/-- Reachable observation points: server states produced by any sequence of
connection-open (success path), inbound-frame handling, connection-close and
timer-expiry operations, starting from the empty state.  The second index
records the connection handles used so far; a transport handle is a fresh
object, so an open requires a handle not seen before.  Frame and close
operations on arbitrary handles are allowed (the code treats unknown handles
by replying an error or doing nothing). -/
inductive Reachable : ServerState → List Nat → Prop where
  | init : Reachable initState []
  | stepOpen {s used ws uid un em ro tok chats at1} : Reachable s used →
      ws ∉ used →
      Reachable (handleConnection ws uid un em ro tok chats at1 s).2 (ws :: used)
  | stepFrame {s used mx ws f ds now} : Reachable s used →
      Reachable (handleMessage mx ws f ds now s).state used
  | stepClose {s used ws} : Reachable s used →
      Reachable (handleDisconnection ws s).2 used
  | stepFire {s used t} : Reachable s used → t ∈ s.pending →
      Reachable (fireTimer t s).2 used

/-- Reachable observation points under the single-session discipline: as
Reachable, but a connection may only open for an identity that is not
currently online, so no two live connections ever share an identity. -/
inductive ReachableD : ServerState → List Nat → Prop where
  | init : ReachableD initState []
  | stepOpen {s used ws uid un em ro tok chats at1} : ReachableD s used →
      ws ∉ used → isUserOnline s uid = false →
      ReachableD (handleConnection ws uid un em ro tok chats at1 s).2 (ws :: used)
  | stepFrame {s used mx ws f ds now} : ReachableD s used →
      ReachableD (handleMessage mx ws f ds now s).state used
  | stepClose {s used ws} : ReachableD s used →
      ReachableD (handleDisconnection ws s).2 used
  | stepFire {s used t} : ReachableD s used → t ∈ s.pending →
      ReachableD (fireTimer t s).2 used

/-- Number of deliveries of one given frame to one given connection in a
delivery list. -/
def deliveriesTo (ws : Nat) (msg : OutMsg) (l : List (Nat × OutMsg)) : Nat :=
  (l.filter (fun d => d = (ws, msg))).length

/-- Topics actually broadcast by the broadcastPresence loop: the chatIds in
first-occurrence order that are not in the already-seen set. -/
def newTopics : List String → List String → List String
  | [], _ => []
  | c :: rest, seen =>
    if c ∈ seen then newTopics rest seen
    else c :: newTopics rest (setAdd seen c)

/-- An attempt outcome on which makeRequest retries: any failure except a
thrown HttpError with a truthy status below 500. -/
def retryAttempt {T : Type} : Attempt T → Prop
  | .success _ => False
  | .httpStatus status _ => ¬ (¬ status = 0 ∧ status < 500)
  | .netFail _ => True

/-- Message of the error recorded for a failed attempt (the lastError whose
message the exhausted-retries HttpError carries as originalError). -/
def attemptMsg {T : Type} : Attempt T → String
  | .success _ => ""
  | .httpStatus _ msg => msg
  | .netFail msg => msg

/-- Well-formedness of the room registry maintained by RoomManagerImpl:
member sets and room sets are duplicate free and never empty (empty rooms
are pruned), and the rooms and wsRooms indices are mutually consistent. -/
structure RegWF (rm : RoomState) : Prop where
  roomsNodup : ∀ c l, mget rm.rooms c = some l → l.Nodup
  roomsNonempty : ∀ c l, mget rm.rooms c = some l → ¬ l = []
  wsNodup : ∀ w cl, mget rm.wsRooms w = some cl → cl.Nodup
  wsNonempty : ∀ w cl, mget rm.wsRooms w = some cl → ¬ cl = []
  link : ∀ c w, w ∈ roomMembers rm c ↔ c ∈ wsRoomsOf rm w

/-- Invariant of reachable server states under the single-session
discipline, tying the presence directory, the room registry and the timer
pool together. -/
structure SrvInv (s : ServerState) (used : List Nat) : Prop where
  reg : RegWF s.room
  presLink : ∀ ws uid, mget s.pres.wsToUserId ws = some uid →
    ∃ u, mget s.pres.connectedUsers uid = some u ∧ u.ws = ws ∧ u.userId = uid
  presBack : ∀ uid u, mget s.pres.connectedUsers uid = some u →
    u.userId = uid ∧ mget s.pres.wsToUserId u.ws = some uid
  chatNodup : ∀ uid u, mget s.pres.connectedUsers uid = some u → u.chatRooms.Nodup
  sessRooms : ∀ uid u, mget s.pres.connectedUsers uid = some u →
    wsRoomsOf s.room u.ws = u.chatRooms
  regLive : ∀ w, ¬ mget s.room.wsRooms w = none → ¬ mget s.pres.wsToUserId w = none
  timerLink : ∀ t, t ∈ s.pending →
    mget s.pres.wsToUserId t.owner = some t.userId ∧
    ∃ u, mget s.pres.connectedUsers t.userId = some u ∧ u.ws = t.owner ∧
      mget u.typingTimers t.chatId = some t.id ∧ t.chatId ∈ u.chatRooms
  timerIds : (s.pending.map (fun t => t.id)).Nodup
  timerFresh : ∀ t, t ∈ s.pending → t.id < s.nextTimerId
  usedWs : ∀ w, ¬ mget s.pres.wsToUserId w = none → w ∈ used
  usedRoom : ∀ w, ¬ mget s.room.wsRooms w = none → w ∈ used
  usedTimer : ∀ t, t ∈ s.pending → t.owner ∈ used

/-- Downstream oracle used by concrete traces in which no downstream call is
exercised. -/
def dsIdle : Downstream :=
  ⟨.error ⟨none, "unused", none⟩, .ok ()⟩

/-- Concrete trace: connection 1 opens as identity U1 with chat list [A]. -/
def sOpen1 : ServerState :=
  (handleConnection 1 "U1" "N1" "e1" "buyer" "t1" (.ok ["A"]) 0 initState).2

/-- Concrete trace: connection 2 then opens as identity U2, also in chat A. -/
def sOpen12 : ServerState :=
  (handleConnection 2 "U2" "N2" "e2" "seller" "t2" (.ok ["A"]) 0 sOpen1).2

/-- Concrete trace for the presence announcement: connection 1 opens as U1
with chat list [A, B]. -/
def sPeerAB : ServerState :=
  (handleConnection 1 "U1" "N1" "e1" "buyer" "t1" (.ok ["A", "B"]) 0 initState).2

/-- Concrete frame carrying a chat:typing true payload for chat A. -/
def frTypingA : RawFrame :=
  ⟨44, 44, some (.chatTyping ⟨"A", true⟩)⟩

/-- Dual-identity trace, step 1: connection 1 opens as identity U in chat A. -/
def dual1 : ServerState :=
  (handleConnection 1 "U" "N" "e" "buyer" "t" (.ok ["A"]) 0 initState).2

/-- Dual-identity trace, step 2: connection 1 sends chat:typing true, which
schedules typing-expiry timer 0 owned by connection 1. -/
def dual2 : ServerState :=
  (handleMessage 10000 1 frTypingA dsIdle "ts" dual1).state

/-- Dual-identity trace, step 3: connection 2 opens for the same identity U,
overwriting the identity entry while timer 0 stays scheduled. -/
def dual3 : ServerState :=
  (handleConnection 2 "U" "N" "e" "buyer" "t" (.ok ["A"]) 0 dual2).2

/-- Dual-identity trace, step 4: connection 1 closes.  The close resolves
socket 1 to the second session record, whose timer map is empty, so timer 0
survives the teardown while both sessions records are gone. -/
def dual4 : ServerState :=
  (handleDisconnection 1 dual3).2

/-- The typing-expiry timer scheduled in the dual-identity trace. -/
def timer0 : Timer :=
  ⟨0, 1, "U", "N", "A"⟩

/-! Basic lemmas about the JS Map and Set model. -/

theorem mget_mset_self {α β : Type} [DecidableEq α] (m : List (α × β)) (k : α) (v : β) :
    mget (mset m k v) k = some v := by
  induction m with
  | nil => simp [mset, mget]
  | cons p rest ih =>
    by_cases hk : p.1 = k
    · simp [mset, mget, hk]
    · simpa [mset, mget, hk] using ih

theorem mget_mset_ne {α β : Type} [DecidableEq α] (m : List (α × β)) (k k' : α) (v : β)
    (h : ¬ k' = k) : mget (mset m k v) k' = mget m k' := by
  have h2 : ¬ k = k' := fun e => h e.symm
  induction m with
  | nil => simp [mset, mget, h2]
  | cons p rest ih =>
    by_cases hk : p.1 = k
    · simp [mset, mget, hk, h2]
    · by_cases hk' : p.1 = k'
      · simp [mset, mget, hk, hk', h]
      · simpa [mset, mget, hk, hk'] using ih

theorem mget_mdel_self {α β : Type} [DecidableEq α] (m : List (α × β)) (k : α) :
    mget (mdel m k) k = none := by
  induction m with
  | nil => simp [mdel, mget]
  | cons p rest ih =>
    by_cases hk : p.1 = k
    · simpa [mdel, hk] using ih
    · simpa [mdel, mget, hk] using ih

theorem mget_mdel_ne {α β : Type} [DecidableEq α] (m : List (α × β)) (k k' : α)
    (h : ¬ k' = k) : mget (mdel m k) k' = mget m k' := by
  have h2 : ¬ k = k' := fun e => h e.symm
  induction m with
  | nil => simp [mdel, mget]
  | cons p rest ih =>
    by_cases hk : p.1 = k
    · simpa [mdel, mget, hk, h2] using ih
    · by_cases hk' : p.1 = k'
      · simp [mdel, mget, hk, hk', h]
      · simpa [mdel, mget, hk, hk'] using ih

theorem mset_eq_of_mget {α β : Type} [DecidableEq α] (m : List (α × β)) (k : α) (v : β)
    (h : mget m k = some v) : mset m k v = m := by
  induction m with
  | nil => simp [mget] at h
  | cons p rest ih =>
    by_cases hk : p.1 = k
    · have hv : p.2 = v := by simpa [mget, hk] using h
      have : p = (k, v) := by
        cases p; simp_all
      simp [mset, hk, this]
    · have := ih (by simpa [mget, hk] using h)
      simp [mset, hk, this]

/-- C10: behavior of a second simultaneous session for the same identity.
Registering the second session overwrites the identity entry while both
connection entries remain, so the first socket now resolves to the second
record; removing the first socket then deletes the single identity entry and
clears the timers recorded in the second record, leaving the identity
offline while the second socket is still indexed. -/
theorem C10_duplicate_identity
    (s : ServerState) (uid : String) (ws1 ws2 : Nat) (u1 u2 : ConnectedUser)
    (h1 : mget s.pres.connectedUsers uid = some u1)
    (hw1 : mget s.pres.wsToUserId ws1 = some uid)
    (hu2id : u2.userId = uid) (hu2ws : u2.ws = ws2) (hne : ¬ ws1 = ws2) :
    getUserByWs (addUser u2 s) ws1 = some u2 ∧
    mget (addUser u2 s).pres.wsToUserId ws1 = some uid ∧
    mget (addUser u2 s).pres.wsToUserId ws2 = some uid ∧
    (removeUser ws1 (addUser u2 s)).1 = some u2 ∧
    isUserOnline (removeUser ws1 (addUser u2 s)).2 uid = false ∧
    mget (removeUser ws1 (addUser u2 s)).2.pres.wsToUserId ws2 = some uid ∧
    (removeUser ws1 (addUser u2 s)).2.pending =
      (mvalues u2.typingTimers).foldl clearTimeout s.pending := by
  have hws1 : mget (addUser u2 s).pres.wsToUserId ws1 = some uid := by
    simp only [addUser, hu2ws]
    rw [mget_mset_ne _ _ _ _ hne]
    exact hw1
  have hcu : mget (addUser u2 s).pres.connectedUsers uid = some u2 := by
    simp only [addUser, hu2id]
    exact mget_mset_self _ _ _
  have hws2 : mget (addUser u2 s).pres.wsToUserId ws2 = some uid := by
    simp only [addUser, hu2ws, hu2id]
    exact mget_mset_self _ _ _
  have hby : getUserByWs (addUser u2 s) ws1 = some u2 := by
    simp [getUserByWs, hws1, hcu]
  have hrm : removeUser ws1 (addUser u2 s) =
      (some u2,
       { addUser u2 s with
         pres := ⟨mdel (addUser u2 s).pres.connectedUsers uid,
                  mdel (addUser u2 s).pres.wsToUserId ws1⟩
         pending := (mvalues u2.typingTimers).foldl clearTimeout (addUser u2 s).pending }) := by
    simp [removeUser, hws1, hcu]
  refine ⟨hby, hws1, hws2, ?_, ?_, ?_, ?_⟩
  · simp [hrm]
  · simp [hrm, isUserOnline, mhas, mget_mdel_self]
  · simp only [hrm]
    rw [mget_mdel_ne _ _ _ (fun e => hne e.symm)]
    exact hws2
  · rw [hrm]
    simp [addUser]

/-! Reachability of the concrete traces. -/

theorem dual1_reachable : Reachable dual1 [1] :=
  Reachable.stepOpen Reachable.init (by decide)

theorem dual2_reachable : Reachable dual2 [1] :=
  Reachable.stepFrame dual1_reachable

theorem dual3_reachable : Reachable dual3 [2, 1] :=
  Reachable.stepOpen dual2_reachable (by decide)

theorem dual4_reachable : Reachable dual4 [2, 1] :=
  Reachable.stepClose dual3_reachable

theorem sOpen1_reachable : Reachable sOpen1 [1] :=
  Reachable.stepOpen Reachable.init (by decide)

theorem sOpen12_reachable : Reachable sOpen12 [2, 1] :=
  Reachable.stepOpen sOpen1_reachable (by decide)

theorem sPeerAB_reachable : Reachable sPeerAB [1] :=
  Reachable.stepOpen Reachable.init (by decide)

/-- C4 counterexample: in the reachable state dual4 (two connections opened
for the same identity, then the first one closed), connection 2 is still a
member of topic A while no Session at all corresponds to it, so the claimed
bidirectional Registry/Directory consistency fails at a reachable
observation point. -/
theorem C4_consistency_cex :
    Reachable dual4 [2, 1] ∧ 2 ∈ roomMembers dual4.room "A" ∧
    getUserByWs dual4 2 = none ∧
    ¬ (∀ s used, Reachable s used → ∀ w c,
        w ∈ roomMembers s.room c ↔ ∃ u, getUserByWs s w = some u ∧ c ∈ u.chatRooms) := by
  refine ⟨dual4_reachable, by decide, by decide, fun h => ?_⟩
  obtain ⟨u, hu, -⟩ := (h dual4 [2, 1] dual4_reachable 2 "A").mp (by decide)
  rw [show getUserByWs dual4 2 = none by decide] at hu
  exact Option.noConfusion hu

/-- C3 counterexample: timer 0 is pending at the reachable state dual4 while
its owning Session is gone from the Session Directory, yet firing it
broadcasts a synthetic stopped-typing event to connection 2 instead of
silently no-opping: the callback re-checks nothing. -/
theorem C3_timer_callback_cex :
    Reachable dual4 [2, 1] ∧ timer0 ∈ dual4.pending ∧
    getUserByWs dual4 timer0.owner = none ∧
    (fireTimer timer0 dual4).1 = [(2, OutMsg.chatTyping "A" "U" "N" false)] ∧
    ¬ (∀ s used t, Reachable s used → t ∈ s.pending →
        getUserByWs s t.owner = none → (fireTimer t s).1 = []) := by
  refine ⟨dual4_reachable, by decide, by decide, by decide, fun h => ?_⟩
  have := h dual4 [2, 1] timer0 dual4_reachable (by decide) (by decide)
  rw [show (fireTimer timer0 dual4).1 = [(2, OutMsg.chatTyping "A" "U" "N" false)] by decide]
    at this
  exact List.noConfusion this

/-- C5 counterexample: at the reachable state dual4, the close sequence for
connection 1 has run once, yet the typing timer owned by connection 1 is
still pending; moreover the close sequence for the still-live connection 2
runs once and changes nothing, leaving connection 2 in the member set of
topic A and its directory index in place. -/
theorem C5_teardown_cex :
    Reachable dual4 [2, 1] ∧
    dual4.pending = [timer0] ∧ timer0.owner = 1 ∧
    handleDisconnection 2 dual4 = ([], dual4) ∧
    2 ∈ roomMembers (handleDisconnection 2 dual4).2.room "A" ∧
    mget (handleDisconnection 2 dual4).2.pres.wsToUserId 2 = some "U" := by
  exact ⟨dual4_reachable, by decide, by decide, by decide, by decide, by decide⟩

/-- C1 counterexample: in the reachable state sOpen12 both connections are
members of topic A, the chat:read handler from connection 1 succeeds after
persistence, but the resulting broadcast goes to connection 2 only: the
originating connection, although a member, is excluded. -/
theorem C1_read_broadcast_cex :
    Reachable sOpen12 [2, 1] ∧ 1 ∈ roomMembers sOpen12.room "A" ∧
    handleChatRead 1 ⟨"A", "m1"⟩ (.ok ()) "ts" sOpen12 =
      .ok ([(2, OutMsg.chatRead "A" "m1" "U1" "ts")], sOpen12) := by
  exact ⟨sOpen12_reachable, by decide, by decide⟩

/-- C2 counterexample: connection 1 is a member of both topics A and B; when
connection 2 opens having fetched the same two topics, the user:online
announcement reaches connection 1 twice, once per shared topic, not exactly
once: the deduplication is per topic, not per peer. -/
theorem C2_presence_dedup_cex :
    Reachable sPeerAB [1] ∧
    deliveriesTo 1 (OutMsg.userOnline "U2" true)
      (handleConnection 2 "U2" "N2" "e2" "seller" "t2" (.ok ["A", "B"]) 0 sPeerAB).1 = 2 := by
  exact ⟨sPeerAB_reachable, by decide⟩

/-! Broadcast helper lemmas. -/

theorem broadcastToRoom_exclude {μ : Type} (c : String) (msg : μ) (ws : Nat)
    (rm : RoomState) :
    broadcastToRoom c msg (some ws) rm =
      ((roomMembers rm c).filter (fun w => ¬ w = ws)).map (fun w => (w, msg)) := by
  unfold broadcastToRoom roomMembers
  cases h : mget rm.rooms c with
  | none => simp
  | some l =>
    simp only [Option.getD_some]
    congr 1
    apply List.filter_congr
    intro w _
    simp [eq_comm]

/-- C1 amended: for a chat:read event from a registered connection that is a
member of the topic, once persistence succeeds the read-receipt broadcast is
delivered to every current member of the topic except the originating
connection, which is excluded exactly as in message and typing broadcasts. -/
theorem C1_read_broadcast_amended (ws : Nat) (p : ChatReadPayload) (now : String)
    (s : ServerState) (user : ConnectedUser)
    (huser : getUserByWs s ws = some user)
    (hc : ¬ p.chatId = "") (hm : ¬ p.messageId = "")
    (hmem : p.chatId ∈ user.chatRooms) :
    handleChatRead ws p (.ok ()) now s =
      .ok (((roomMembers s.room p.chatId).filter (fun w => ¬ w = ws)).map
             (fun w => (w, OutMsg.chatRead p.chatId p.messageId user.userId now)), s) := by
  simp [handleChatRead, huser, hc, hm, hmem, liftHttp, broadcastToRoom_exclude]

/-- C1 amended witness at the concrete two-member state sOpen12. -/
theorem C1_read_broadcast_amended_witness :
    handleChatRead 1 ⟨"A", "m1"⟩ (.ok ()) "ts" sOpen12 =
      .ok (((roomMembers sOpen12.room "A").filter (fun w => ¬ w = 1)).map
             (fun w => (w, OutMsg.chatRead "A" "m1" "U1" "ts")), sOpen12) :=
  C1_read_broadcast_amended 1 ⟨"A", "m1"⟩ "ts" sOpen12
    ⟨"U1", "N1", "e1", "buyer", 1, "t1", ["A"], 0, []⟩ (by decide) (by decide) (by decide)
    (by decide)

/-- C8 amended: the inbound size check compares the UTF-16 length of the
decoded frame text with the configured maximum; whenever that length exceeds
the maximum the frame is rejected with a VALIDATION_ERROR reply to the
sender before any JSON parse is attempted, and no server state changes. -/
theorem C8_size_check_amended (mx ws : Nat) (frame : RawFrame) (ds : Downstream)
    (now : String) (s : ServerState) (h : frame.charLen > mx) :
    handleMessage mx ws frame ds now s =
      ⟨[(ws, OutMsg.errorMsg "VALIDATION_ERROR" "Message too large")], s, false⟩ := by
  simp [handleMessage, h]

/-- C8 amended witness at a concrete oversized frame. -/
theorem C8_size_check_amended_witness :
    handleMessage 10 7 ⟨11, 11, none⟩ dsIdle "ts" initState =
      ⟨[(7, OutMsg.errorMsg "VALIDATION_ERROR" "Message too large")], initState, false⟩ :=
  C8_size_check_amended 10 7 ⟨11, 11, none⟩ dsIdle "ts" initState (by decide)

/-- C8 counterexample: the size check reads the UTF-16 length of the decoded
text, not the raw byte size.  The witness frame is a valid ping envelope
padded with four characters of three UTF-8 bytes each, giving 38 UTF-16
units but 46 raw bytes; with a configured maximum of 40 the raw size exceeds
the maximum, yet the frame is parsed and answered with a pong and no
VALIDATION_ERROR is produced. -/
theorem C8_size_check_cex :
    (38 : Nat) ≤ 40 ∧ (46 : Nat) > 40 ∧
    handleMessage 40 7 ⟨38, 46, some .ping⟩ dsIdle "ts" initState =
      ⟨[(7, OutMsg.pong "ts")], initState, true⟩ ∧
    ¬ (∀ (mx ws : Nat) (frame : RawFrame) (ds : Downstream) (now : String)
        (s : ServerState), frame.byteLen > mx →
        handleMessage mx ws frame ds now s =
          ⟨[(ws, OutMsg.errorMsg "VALIDATION_ERROR" "Message too large")], s, false⟩) := by
  refine ⟨by decide, by decide, by decide, fun h => ?_⟩
  have h2 := h 40 7 ⟨38, 46, some .ping⟩ dsIdle "ts" initState (by decide)
  rw [show handleMessage 40 7 ⟨38, 46, some .ping⟩ dsIdle "ts" initState =
        ⟨[(7, OutMsg.pong "ts")], initState, true⟩ by decide] at h2
  have h3 : true = false := congrArg HandleResult.parseTried h2
  exact Bool.noConfusion h3

/-- C7: when the persistence call for a send-message event fails, the sender
receives exactly one HTTP_ERROR notification carrying the failure message,
no chat:message broadcast is delivered to anyone, and the server state
(registry, directory and timers) is unchanged. -/
theorem C7_persist_failure_atomic (mx ws : Nat) (frame : RawFrame) (ds : Downstream)
    (now : String) (s : ServerState) (p : ChatMessagePayload) (e : HttpFailure)
    (user : ConnectedUser)
    (hsize : ¬ frame.charLen > mx) (hparse : frame.parsed = some (.chatMessage p))
    (hfail : ds.sendMessageResult = .error e)
    (huser : getUserByWs s ws = some user)
    (hc : ¬ p.chatId = "") (hcontent : ¬ p.content = "")
    (hmem : p.chatId ∈ user.chatRooms) :
    handleMessage mx ws frame ds now s =
      ⟨[(ws, OutMsg.errorMsg "HTTP_ERROR" e.message)], s, true⟩ := by
  simp [handleMessage, hsize, hparse, handleChatMessage, huser, hc, hcontent, hmem,
        hfail, liftHttp, errCode, errText]

/-- C7 witness: a concrete send-message frame from connection 1 in state
sOpen12 whose persistence call fails with a 500. -/
theorem C7_persist_failure_atomic_witness :
    handleMessage 10000 1 ⟨30, 30, some (.chatMessage ⟨"A", "hello"⟩)⟩
      ⟨.error ⟨some 500, "boom", none⟩, .ok ()⟩ "ts" sOpen12 =
      ⟨[(1, OutMsg.errorMsg "HTTP_ERROR" "boom")], sOpen12, true⟩ :=
  C7_persist_failure_atomic 10000 1 ⟨30, 30, some (.chatMessage ⟨"A", "hello"⟩)⟩
    ⟨.error ⟨some 500, "boom", none⟩, .ok ()⟩ "ts" sOpen12 ⟨"A", "hello"⟩
    ⟨some 500, "boom", none⟩ ⟨"U1", "N1", "e1", "buyer", 1, "t1", ["A"], 0, []⟩
    (by decide) (by decide) (by decide) (by decide) (by decide) (by decide) (by decide)

/-- C10 witness: concrete duplicate-identity connection on top of the state
dual1, where identity U is live on connection 1; the second record carries a
typing timer entry to exhibit the timer cancellation. -/
theorem C10_duplicate_identity_witness :
    getUserByWs (addUser ⟨"U", "N2", "e2", "seller", 2, "t2", ["A"], 0, [("A", 5)]⟩ dual1) 1 =
      some ⟨"U", "N2", "e2", "seller", 2, "t2", ["A"], 0, [("A", 5)]⟩ ∧
    mget (addUser ⟨"U", "N2", "e2", "seller", 2, "t2", ["A"], 0, [("A", 5)]⟩
        dual1).pres.wsToUserId 1 = some "U" ∧
    mget (addUser ⟨"U", "N2", "e2", "seller", 2, "t2", ["A"], 0, [("A", 5)]⟩
        dual1).pres.wsToUserId 2 = some "U" ∧
    (removeUser 1 (addUser ⟨"U", "N2", "e2", "seller", 2, "t2", ["A"], 0, [("A", 5)]⟩
        dual1)).1 = some ⟨"U", "N2", "e2", "seller", 2, "t2", ["A"], 0, [("A", 5)]⟩ ∧
    isUserOnline (removeUser 1 (addUser ⟨"U", "N2", "e2", "seller", 2, "t2", ["A"], 0,
        [("A", 5)]⟩ dual1)).2 "U" = false ∧
    mget (removeUser 1 (addUser ⟨"U", "N2", "e2", "seller", 2, "t2", ["A"], 0,
        [("A", 5)]⟩ dual1)).2.pres.wsToUserId 2 = some "U" ∧
    (removeUser 1 (addUser ⟨"U", "N2", "e2", "seller", 2, "t2", ["A"], 0,
        [("A", 5)]⟩ dual1)).2.pending =
      (mvalues [("A", 5)]).foldl clearTimeout dual1.pending :=
  C10_duplicate_identity dual1 "U" 1 2 ⟨"U", "N", "e", "buyer", 1, "t", ["A"], 0, []⟩
    ⟨"U", "N2", "e2", "seller", 2, "t2", ["A"], 0, [("A", 5)]⟩
    (by decide) (by decide) rfl rfl (by decide)

/-! Registry facts feeding the idempotence claim. -/

theorem roomMembers_mem {rm : RoomState} {c : String} {ws : Nat}
    (h : ws ∈ roomMembers rm c) :
    ∃ l, mget rm.rooms c = some l ∧ ws ∈ l := by
  unfold roomMembers at h
  cases hg : mget rm.rooms c with
  | none => rw [hg] at h; simp at h
  | some l => rw [hg] at h; exact ⟨l, rfl, h⟩

theorem wsRoomsOf_mem {rm : RoomState} {c : String} {ws : Nat}
    (h : c ∈ wsRoomsOf rm ws) :
    ∃ cl, mget rm.wsRooms ws = some cl ∧ c ∈ cl := by
  unfold wsRoomsOf at h
  cases hg : mget rm.wsRooms ws with
  | none => rw [hg] at h; simp at h
  | some cl => rw [hg] at h; exact ⟨cl, rfl, h⟩

/-- C9: on a well-formed registry, joining a topic the connection is already
a member of, and leaving a topic it is not a member of, leave the Topic
Registry bit for bit unchanged; neither case is an error. -/
theorem C9_join_leave_idempotent (c : String) (ws : Nat) (rm : RoomState)
    (hwf : RegWF rm) :
    (ws ∈ roomMembers rm c → joinRoom c ws rm = rm) ∧
    (¬ ws ∈ roomMembers rm c → leaveRoom c ws rm = rm) := by
  constructor
  · intro hmem
    obtain ⟨l, hl, hwl⟩ := roomMembers_mem hmem
    have hlink : c ∈ wsRoomsOf rm ws := (hwf.link c ws).mp hmem
    obtain ⟨cl, hcl, hccl⟩ := wsRoomsOf_mem hlink
    have hhas : mhas rm.rooms c = true := by simp [mhas, hl]
    have hhas2 : mhas rm.wsRooms ws = true := by simp [mhas, hcl]
    unfold joinRoom
    simp only [hhas, hhas2, if_pos, hl, hcl, Option.getD_some]
    rw [setAdd, if_pos hwl, setAdd, if_pos hccl,
        mset_eq_of_mget _ _ _ hl, mset_eq_of_mget _ _ _ hcl]
  · intro hmem
    have hlink : ¬ c ∈ wsRoomsOf rm ws := fun h => hmem ((hwf.link c ws).mpr h)
    unfold leaveRoom
    cases hl : mget rm.rooms c with
    | none =>
      cases hcl : mget rm.wsRooms ws with
      | none => simp
      | some cl =>
        have hnc : ¬ c ∈ cl := fun h => hlink (by simp [wsRoomsOf, hcl, h])
        have he : cl.erase c = cl := List.erase_of_not_mem hnc
        have hne : ¬ cl = [] := hwf.wsNonempty ws cl hcl
        simp only [he, if_neg hne, mset_eq_of_mget _ _ _ hcl]
    | some l =>
      have hnl : ¬ ws ∈ l := fun h => hmem (by simp [roomMembers, hl, h])
      have he : l.erase ws = l := List.erase_of_not_mem hnl
      have hne : ¬ l = [] := hwf.roomsNonempty c l hl
      cases hcl : mget rm.wsRooms ws with
      | none => simp only [he, if_neg hne, mset_eq_of_mget _ _ _ hl]
      | some cl =>
        have hnc : ¬ c ∈ cl := fun h => hlink (by simp [wsRoomsOf, hcl, h])
        have he2 : cl.erase c = cl := List.erase_of_not_mem hnc
        have hne2 : ¬ cl = [] := hwf.wsNonempty ws cl hcl
        simp only [he, if_neg hne, he2, if_neg hne2,
          mset_eq_of_mget _ _ _ hl, mset_eq_of_mget _ _ _ hcl]

/-! Counting lemmas for the presence announcement. -/

theorem deliveriesTo_append (p : Nat) (msg : OutMsg) (a b : List (Nat × OutMsg)) :
    deliveriesTo p msg (a ++ b) = deliveriesTo p msg a + deliveriesTo p msg b := by
  simp [deliveriesTo, List.filter_append]

theorem deliveriesTo_map (p : Nat) (msg : OutMsg) (l : List Nat) :
    deliveriesTo p msg (l.map (fun w => (w, msg))) = l.count p := by
  induction l with
  | nil => rfl
  | cons w rest ih =>
    by_cases h : w = p
    · simp [deliveriesTo, List.count_cons, h] at ih ⊢
      omega
    · simp [deliveriesTo, List.count_cons, h, Prod.ext_iff] at ih ⊢
      exact ih

theorem broadcastToRoom_all {μ : Type} (c : String) (msg : μ) (rm : RoomState) :
    broadcastToRoom c msg none rm = (roomMembers rm c).map (fun w => (w, msg)) := by
  unfold broadcastToRoom roomMembers
  cases h : mget rm.rooms c with
  | none => simp
  | some l =>
    simp only [Option.getD_some]
    have hf : l.filter (fun w => ¬ (none : Option Nat) = some w) = l := by
      apply List.filter_eq_self.mpr
      intro a _
      simp
    rw [hf]

theorem deliveriesTo_broadcast_all (p : Nat) (msg : OutMsg) (c : String)
    (rm : RoomState) (hnd : (roomMembers rm c).Nodup) :
    deliveriesTo p msg (broadcastToRoom c msg none rm) =
      if p ∈ roomMembers rm c then 1 else 0 := by
  rw [broadcastToRoom_all, deliveriesTo_map]
  by_cases hp : p ∈ roomMembers rm c
  · simp [hp, List.count_eq_one_of_mem hnd hp]
  · simp [hp, List.count_eq_zero_of_not_mem hp]

theorem deliveriesTo_go (p : Nat) (msg : OutMsg) (rm : RoomState)
    (hnd : ∀ c l, mget rm.rooms c = some l → l.Nodup) :
    ∀ (l seen : List String),
      deliveriesTo p msg (broadcastPresenceGo msg rm l seen) =
        ((newTopics l seen).filter (fun c => p ∈ roomMembers rm c)).length := by
  intro l
  induction l with
  | nil => intro seen; rfl
  | cons c rest ih =>
    intro seen
    by_cases hc : c ∈ seen
    · simp [broadcastPresenceGo, newTopics, hc, ih]
    · have hmem : (roomMembers rm c).Nodup := by
        unfold roomMembers
        cases hg : mget rm.rooms c with
        | none => simp
        | some l2 => simpa using hnd c l2 hg
      simp only [broadcastPresenceGo, newTopics, if_neg hc]
      rw [deliveriesTo_append, deliveriesTo_broadcast_all p msg c rm hmem,
        ih (setAdd seen c), List.filter_cons]
      by_cases hp : p ∈ roomMembers rm c
      · simp [hp]
        omega
      · simp [hp]

/-- C2 amended: the user:online announcement on connection-open is
deduplicated per topic identifier, not per peer: each distinct fetched topic
produces exactly one broadcast to its full member set, so a peer connection
receives exactly as many online notices as the number of distinct joined
topics whose member set contains it (more than one when several topics are
shared), and exactly one per such topic. -/
theorem C2_presence_per_topic_amended (uid : String) (online : Bool)
    (chatIds : List String) (rm : RoomState) (p : Nat)
    (hnd : ∀ c l, mget rm.rooms c = some l → l.Nodup) :
    deliveriesTo p (OutMsg.userOnline uid online)
      (broadcastPresence uid online chatIds rm) =
      ((newTopics chatIds []).filter (fun c => p ∈ roomMembers rm c)).length := by
  unfold broadcastPresence
  exact deliveriesTo_go p (OutMsg.userOnline uid online) rm hnd chatIds []

/-- C2 amended witness: at the concrete state sPeerAB, the newcomer fetches
topics A and B, and peer connection 1, a member of both, receives one notice
per distinct shared topic. -/
theorem C2_presence_per_topic_amended_witness :
    deliveriesTo 1 (OutMsg.userOnline "U2" true)
      (broadcastPresence "U2" true ["A", "B"] sPeerAB.room) =
      ((newTopics ["A", "B"] []).filter (fun c => 1 ∈ roomMembers sPeerAB.room c)).length :=
  C2_presence_per_topic_amended "U2" true ["A", "B"] sPeerAB.room 1 (by
    intro c l h
    have e : sPeerAB.room.rooms = [("A", [1]), ("B", [1])] := by decide
    rw [e] at h
    simp only [mget] at h
    split_ifs at h <;> simp_all <;> exact h ▸ List.nodup_singleton 1)

/-! Retry loop lemmas for the backoff client. -/

theorem makeRequestAux_success {T : Type} (f : Nat → Attempt T) (v : T) :
    ∀ (i rem att : Nat) (last : Option HttpFailure), i < rem →
      (∀ j, j < i → retryAttempt (f (att + j))) → f (att + i) = .success v →
      makeRequestAux f rem att last =
        ⟨.ok v, att + i + 1, (List.range i).map (fun j => backoffDelay (att + j))⟩ := by
  intro i
  induction i with
  | zero =>
    intro rem att last hlt _ hf
    match rem, hlt with
    | rem + 1, _ =>
      rw [Nat.add_zero] at hf
      simp [makeRequestAux, hf]
  | succ i ih =>
    intro rem att last hlt hall hf
    match rem, hlt with
    | rem + 1, hlt =>
      have h0 : retryAttempt (f att) := by
        have := hall 0 (Nat.succ_pos i)
        rwa [Nat.add_zero] at this
      have hrem : ¬ rem = 0 := by omega
      have hlt2 : i < rem := by omega
      have hshift : ∀ j, j < i → retryAttempt (f (att + 1 + j)) := by
        intro j hj
        have := hall (j + 1) (by omega)
        rwa [show att + (j + 1) = att + 1 + j by omega] at this
      have hfs : f (att + 1 + i) = .success v := by
        rw [show att + 1 + i = att + (i + 1) by omega]
        exact hf
      cases hfa : f att with
      | success w =>
        rw [hfa] at h0
        exact absurd h0 (by simp [retryAttempt])
      | httpStatus status msg =>
        rw [hfa] at h0
        have hnf : ¬ (¬ status = 0 ∧ status < 500) := h0
        have hrec := ih rem (att + 1) (some (httpFail status msg)) hlt2 hshift hfs
        simp only [makeRequestAux, hfa, if_neg hnf, if_neg hrem, hrec]
        congr 1
        · omega
        · rw [List.range_succ_eq_map, List.map_cons, List.map_map]
          refine congrArg (List.cons _) (List.map_congr_left ?_)
          intro j _
          simp only [Function.comp_apply]
          exact congrArg backoffDelay (by omega)
      | netFail msg =>
        have hrec := ih rem (att + 1) (some ⟨none, msg, none⟩) hlt2 hshift hfs
        simp only [makeRequestAux, hfa, if_neg hrem, hrec]
        congr 1
        · omega
        · rw [List.range_succ_eq_map, List.map_cons, List.map_map]
          refine congrArg (List.cons _) (List.map_congr_left ?_)
          intro j _
          simp only [Function.comp_apply]
          exact congrArg backoffDelay (by omega)

theorem makeRequestAux_clientFault {T : Type} (f : Nat → Attempt T)
    (status : Nat) (msg : String) (hs0 : ¬ status = 0) (hs5 : status < 500) :
    ∀ (i rem att : Nat) (last : Option HttpFailure), i < rem →
      (∀ j, j < i → retryAttempt (f (att + j))) → f (att + i) = .httpStatus status msg →
      makeRequestAux f rem att last =
        ⟨.error (httpFail status msg), att + i + 1,
         (List.range i).map (fun j => backoffDelay (att + j))⟩ := by
  intro i
  induction i with
  | zero =>
    intro rem att last hlt _ hf
    match rem, hlt with
    | rem + 1, _ =>
      rw [Nat.add_zero] at hf
      simp [makeRequestAux, hf, hs0, hs5]
  | succ i ih =>
    intro rem att last hlt hall hf
    match rem, hlt with
    | rem + 1, hlt =>
      have h0 : retryAttempt (f att) := by
        have := hall 0 (Nat.succ_pos i)
        rwa [Nat.add_zero] at this
      have hrem : ¬ rem = 0 := by omega
      have hlt2 : i < rem := by omega
      have hshift : ∀ j, j < i → retryAttempt (f (att + 1 + j)) := by
        intro j hj
        have := hall (j + 1) (by omega)
        rwa [show att + (j + 1) = att + 1 + j by omega] at this
      have hfs : f (att + 1 + i) = .httpStatus status msg := by
        rw [show att + 1 + i = att + (i + 1) by omega]
        exact hf
      cases hfa : f att with
      | success w =>
        rw [hfa] at h0
        exact absurd h0 (by simp [retryAttempt])
      | httpStatus st2 m2 =>
        rw [hfa] at h0
        have hnf : ¬ (¬ st2 = 0 ∧ st2 < 500) := h0
        have hrec := ih rem (att + 1) (some (httpFail st2 m2)) hlt2 hshift hfs
        simp only [makeRequestAux, hfa, if_neg hnf, if_neg hrem, hrec]
        congr 1
        · omega
        · rw [List.range_succ_eq_map, List.map_cons, List.map_map]
          refine congrArg (List.cons _) (List.map_congr_left ?_)
          intro j _
          simp only [Function.comp_apply]
          exact congrArg backoffDelay (by omega)
      | netFail m2 =>
        have hrec := ih rem (att + 1) (some ⟨none, m2, none⟩) hlt2 hshift hfs
        simp only [makeRequestAux, hfa, if_neg hrem, hrec]
        congr 1
        · omega
        · rw [List.range_succ_eq_map, List.map_cons, List.map_map]
          refine congrArg (List.cons _) (List.map_congr_left ?_)
          intro j _
          simp only [Function.comp_apply]
          exact congrArg backoffDelay (by omega)

theorem makeRequestAux_exhaust {T : Type} (f : Nat → Attempt T) :
    ∀ (rem att : Nat) (last : Option HttpFailure), 1 ≤ rem →
      (∀ j, j < rem → retryAttempt (f (att + j))) →
      makeRequestAux f rem att last =
        ⟨.error ⟨none, "Request failed after retries",
                 some (attemptMsg (f (att + rem - 1)))⟩,
         att + rem, (List.range (rem - 1)).map (fun j => backoffDelay (att + j))⟩ := by
  intro rem
  induction rem with
  | zero =>
    intro att last h
    omega
  | succ r ihr =>
    intro att last _ hall
    have h0 : retryAttempt (f att) := by
      have := hall 0 (Nat.succ_pos r)
      rwa [Nat.add_zero] at this
    by_cases hr0 : r = 0
    · subst hr0
      cases hfa : f att with
      | success w =>
        rw [hfa] at h0
        exact absurd h0 (by simp [retryAttempt])
      | httpStatus status msg =>
        rw [hfa] at h0
        have hnf : ¬ (¬ status = 0 ∧ status < 500) := h0
        simp [makeRequestAux, hfa, if_neg hnf, exhaustedFail, httpFail, attemptMsg]
      | netFail msg =>
        simp [makeRequestAux, hfa, exhaustedFail, attemptMsg]
    · have hshift : ∀ j, j < r → retryAttempt (f (att + 1 + j)) := by
        intro j hj
        have := hall (j + 1) (by omega)
        rwa [show att + (j + 1) = att + 1 + j by omega] at this
      have harg : att + 1 + r - 1 = att + (r + 1) - 1 := by omega
      cases hfa : f att with
      | success w =>
        rw [hfa] at h0
        exact absurd h0 (by simp [retryAttempt])
      | httpStatus status msg =>
        rw [hfa] at h0
        have hnf : ¬ (¬ status = 0 ∧ status < 500) := h0
        have hrec := ihr (att + 1) (some (httpFail status msg)) (by omega) hshift
        rw [harg] at hrec
        simp only [makeRequestAux, hfa, if_neg hnf, if_neg hr0, hrec]
        congr 1
        · omega
        · rw [show r + 1 - 1 = (r - 1) + 1 by omega, List.range_succ_eq_map,
            List.map_cons, List.map_map]
          refine congrArg (List.cons _) (List.map_congr_left ?_)
          intro j _
          simp only [Function.comp_apply]
          exact congrArg backoffDelay (by omega)
      | netFail msg =>
        have hrec := ihr (att + 1) (some ⟨none, msg, none⟩) (by omega) hshift
        rw [harg] at hrec
        simp only [makeRequestAux, hfa, if_neg hr0, hrec]
        congr 1
        · omega
        · rw [show r + 1 - 1 = (r - 1) + 1 by omega, List.range_succ_eq_map,
            List.map_cons, List.map_map]
          refine congrArg (List.cons _) (List.map_congr_left ?_)
          intro j _
          simp only [Function.comp_apply]
          exact congrArg backoffDelay (by omega)

/-- C6: contract of the retrying request executor.  A response with a
client-fault status (truthy status below 500, after any run of retryable
failures) is surfaced immediately as that HttpError with no further attempt;
a success on any attempt after retryable failures yields the success result
with no error, having slept the exponential capped backoff delays between
attempts; exhausting the attempt budget on retryable failures (server
faults, network and timeout errors) raises the downstream HttpError carrying
the message of the last observed cause; and the delay schedule is the
exponential schedule capped at 5000. -/
theorem C6_backoff_client {T : Type} (f : Nat → Attempt T) (retries : Nat) :
    (∀ i status msg, i < retries → (∀ j, j < i → retryAttempt (f j)) →
      f i = .httpStatus status msg → ¬ status = 0 → status < 500 →
      (makeRequest f retries).result = .error (httpFail status msg) ∧
      (makeRequest f retries).attemptsUsed = i + 1) ∧
    (∀ i v, i < retries → (∀ j, j < i → retryAttempt (f j)) → f i = .success v →
      (makeRequest f retries).result = .ok v ∧
      (makeRequest f retries).attemptsUsed = i + 1 ∧
      (makeRequest f retries).delays = (List.range i).map backoffDelay) ∧
    (1 ≤ retries → (∀ j, j < retries → retryAttempt (f j)) →
      (makeRequest f retries).result =
        .error ⟨none, "Request failed after retries",
                some (attemptMsg (f (retries - 1)))⟩ ∧
      (makeRequest f retries).attemptsUsed = retries ∧
      (makeRequest f retries).delays = (List.range (retries - 1)).map backoffDelay) ∧
    (∀ k, backoffDelay k = min (1000 * 2 ^ k) 5000) := by
  refine ⟨?_, ?_, ?_, fun k => rfl⟩
  · intro i status msg hlt hall hf hs0 hs5
    have h := makeRequestAux_clientFault f status msg hs0 hs5 i retries 0 none hlt
      (by intro j hj; simpa using hall j hj) (by simpa using hf)
    unfold makeRequest
    rw [h]
    simp
  · intro i v hlt hall hf
    have h := makeRequestAux_success f v i retries 0 none hlt
      (by intro j hj; simpa using hall j hj) (by simpa using hf)
    unfold makeRequest
    rw [h]
    simp
  · intro hr hall
    have h := makeRequestAux_exhaust f retries 0 none hr
      (by intro j hj; simpa using hall j hj)
    unfold makeRequest
    rw [h]
    simp

/-- C6 witness: three concrete downstream oracles with the default budget of
three attempts: a 500 then a network failure then a success yields the
success with delays 1000 and 2000; a 404 on the first attempt fails
immediately after one attempt; three network failures exhaust the budget and
surface the retries-exhausted HttpError carrying the last message. -/
theorem C6_backoff_client_witness :
    ((makeRequest (fun i => if i = 0 then Attempt.httpStatus 500 "e1"
        else if i = 1 then Attempt.netFail "e2" else Attempt.success 42) 3).result =
      .ok 42 ∧
     (makeRequest (fun i => if i = 0 then Attempt.httpStatus 500 "e1"
        else if i = 1 then Attempt.netFail "e2" else Attempt.success 42) 3).attemptsUsed = 3 ∧
     (makeRequest (fun i => if i = 0 then Attempt.httpStatus 500 "e1"
        else if i = 1 then Attempt.netFail "e2" else Attempt.success 42) 3).delays =
      [1000, 2000]) ∧
    ((makeRequest (fun _ => Attempt.httpStatus 404 "nf" : Nat → Attempt Nat) 3).result =
      .error (httpFail 404 "nf") ∧
     (makeRequest (fun _ => Attempt.httpStatus 404 "nf" : Nat → Attempt Nat) 3).attemptsUsed
      = 1) ∧
    ((makeRequest (fun _ => Attempt.netFail "down" : Nat → Attempt Nat) 3).result =
      .error ⟨none, "Request failed after retries", some "down"⟩ ∧
     (makeRequest (fun _ => Attempt.netFail "down" : Nat → Attempt Nat) 3).delays =
      [1000, 2000]) := by
  refine ⟨?_, ?_, ?_⟩
  · have h := (C6_backoff_client (fun i => if i = 0 then Attempt.httpStatus 500 "e1"
      else if i = 1 then Attempt.netFail "e2" else Attempt.success 42) 3).2.1 2 42
      (by omega)
      (by
        intro j hj
        interval_cases j <;> simp [retryAttempt])
      rfl
    exact ⟨h.1, h.2.1, by rw [h.2.2]; rfl⟩
  · have h := (C6_backoff_client (fun _ => Attempt.httpStatus 404 "nf" : Nat → Attempt Nat)
      3).1 0 404 "nf" (by omega) (by intro j hj; omega) rfl (by omega) (by omega)
    exact h
  · have h := (C6_backoff_client (fun _ => Attempt.netFail "down" : Nat → Attempt Nat)
      3).2.2.1 (by omega) (by intro j hj; simp [retryAttempt])
    exact ⟨by rw [h.1]; rfl, by rw [h.2.2]; rfl⟩

/-! Set and join lemmas for the registry. -/

theorem setAdd_mem {α : Type} [DecidableEq α] (l : List α) (x y : α) :
    y ∈ setAdd l x ↔ y ∈ l ∨ y = x := by
  unfold setAdd
  by_cases h : x ∈ l
  · simp only [if_pos h]
    constructor
    · exact fun hy => Or.inl hy
    · rintro (hy | rfl)
      · exact hy
      · exact h
  · simp [if_neg h]

theorem setAdd_nodup {α : Type} [DecidableEq α] (l : List α) (x : α)
    (h : l.Nodup) : (setAdd l x).Nodup := by
  unfold setAdd
  by_cases hx : x ∈ l
  · simpa [hx]
  · simp only [if_neg hx]
    rw [List.nodup_append]
    exact ⟨h, List.nodup_singleton x, by simpa [List.disjoint_singleton] using hx⟩

theorem setAdd_ne_nil {α : Type} [DecidableEq α] (l : List α) (x : α) :
    ¬ setAdd l x = [] := by
  unfold setAdd
  by_cases hx : x ∈ l
  · simp only [if_pos hx]
    intro he
    rw [he] at hx
    exact absurd hx (List.not_mem_nil x)
  · simp [hx]

theorem joinRoom_rooms_self (c : String) (ws : Nat) (rm : RoomState) :
    mget (joinRoom c ws rm).rooms c = some (setAdd (roomMembers rm c) ws) := by
  unfold joinRoom roomMembers
  by_cases h : mhas rm.rooms c = true
  · simp only [if_pos h]
    have : ∃ l, mget rm.rooms c = some l := by
      cases hg : mget rm.rooms c with
      | none => rw [mhas, hg] at h; simp at h
      | some l => exact ⟨l, rfl⟩
    obtain ⟨l, hl⟩ := this
    simp [hl, mget_mset_self]
  · simp only [if_neg h]
    have hg : mget rm.rooms c = none := by
      cases hg : mget rm.rooms c with
      | none => rfl
      | some l => rw [mhas, hg] at h; simp at h
    simp [hg, mget_mset_self, mget_mset_ne, mget_mset_self rm.rooms c []]

theorem joinRoom_rooms_other (c c' : String) (ws : Nat) (rm : RoomState)
    (h : ¬ c' = c) : mget (joinRoom c ws rm).rooms c' = mget rm.rooms c' := by
  unfold joinRoom
  by_cases hh : mhas rm.rooms c = true
  · simp only [if_pos hh]
    exact mget_mset_ne _ _ _ _ h
  · simp only [if_neg hh]
    rw [mget_mset_ne _ _ _ _ h, mget_mset_ne _ _ _ _ h]

theorem joinRoom_wsr_self (c : String) (ws : Nat) (rm : RoomState) :
    mget (joinRoom c ws rm).wsRooms ws = some (setAdd (wsRoomsOf rm ws) c) := by
  unfold joinRoom wsRoomsOf
  by_cases h : mhas rm.wsRooms ws = true
  · simp only [if_pos h]
    have : ∃ cl, mget rm.wsRooms ws = some cl := by
      cases hg : mget rm.wsRooms ws with
      | none => rw [mhas, hg] at h; simp at h
      | some cl => exact ⟨cl, rfl⟩
    obtain ⟨cl, hcl⟩ := this
    simp [hcl, mget_mset_self]
  · simp only [if_neg h]
    have hg : mget rm.wsRooms ws = none := by
      cases hg : mget rm.wsRooms ws with
      | none => rfl
      | some cl => rw [mhas, hg] at h; simp at h
    simp [hg, mget_mset_self, mget_mset_ne, mget_mset_self rm.wsRooms ws []]

theorem joinRoom_wsr_other (c : String) (ws w : Nat) (rm : RoomState)
    (h : ¬ w = ws) : mget (joinRoom c ws rm).wsRooms w = mget rm.wsRooms w := by
  unfold joinRoom
  by_cases hh : mhas rm.wsRooms ws = true
  · simp only [if_pos hh]
    exact mget_mset_ne _ _ _ _ h
  · simp only [if_neg hh]
    rw [mget_mset_ne _ _ _ _ h, mget_mset_ne _ _ _ _ h]

theorem joinRoom_roomMembers (c c' : String) (ws : Nat) (rm : RoomState) :
    roomMembers (joinRoom c ws rm) c' =
      if c' = c then setAdd (roomMembers rm c) ws else roomMembers rm c' := by
  by_cases h : c' = c
  · subst h
    simp [roomMembers, joinRoom_rooms_self]
  · simp [roomMembers, joinRoom_rooms_other c c' ws rm h, h]

theorem joinRoom_wsRoomsOf (c : String) (ws w : Nat) (rm : RoomState) :
    wsRoomsOf (joinRoom c ws rm) w =
      if w = ws then setAdd (wsRoomsOf rm ws) c else wsRoomsOf rm w := by
  by_cases h : w = ws
  · subst h
    simp [wsRoomsOf, joinRoom_wsr_self]
  · simp [wsRoomsOf, joinRoom_wsr_other c ws w rm h, h]

theorem joinRoom_regWF (c : String) (ws : Nat) (rm : RoomState) (h : RegWF rm) :
    RegWF (joinRoom c ws rm) := by
  refine ⟨?_, ?_, ?_, ?_, ?_⟩
  · intro c' l hl
    by_cases hc : c' = c
    · subst hc
      rw [joinRoom_rooms_self] at hl
      cases hl
      apply setAdd_nodup
      unfold roomMembers
      cases hg : mget rm.rooms c' with
      | none => simp
      | some l0 => simpa using h.roomsNodup c' l0 hg
    · rw [joinRoom_rooms_other c c' ws rm hc] at hl
      exact h.roomsNodup c' l hl
  · intro c' l hl
    by_cases hc : c' = c
    · subst hc
      rw [joinRoom_rooms_self] at hl
      cases hl
      exact setAdd_ne_nil _ _
    · rw [joinRoom_rooms_other c c' ws rm hc] at hl
      exact h.roomsNonempty c' l hl
  · intro w cl hcl
    by_cases hw : w = ws
    · subst hw
      rw [joinRoom_wsr_self] at hcl
      cases hcl
      apply setAdd_nodup
      unfold wsRoomsOf
      cases hg : mget rm.wsRooms w with
      | none => simp
      | some cl0 => simpa using h.wsNodup w cl0 hg
    · rw [joinRoom_wsr_other c ws w rm hw] at hcl
      exact h.wsNodup w cl hcl
  · intro w cl hcl
    by_cases hw : w = ws
    · subst hw
      rw [joinRoom_wsr_self] at hcl
      cases hcl
      exact setAdd_ne_nil _ _
    · rw [joinRoom_wsr_other c ws w rm hw] at hcl
      exact h.wsNonempty w cl hcl
  · intro c' w
    rw [joinRoom_roomMembers, joinRoom_wsRoomsOf]
    by_cases hc : c' = c <;> by_cases hw : w = ws <;>
      simp [hc, hw, setAdd_mem, h.link]

/-! Lemmas about the join loop of connection-open. -/

theorem foldl_setAdd_mem {α : Type} [DecidableEq α] (l : List α) :
    ∀ (acc : List α) (x : α), x ∈ l.foldl setAdd acc ↔ x ∈ acc ∨ x ∈ l := by
  induction l with
  | nil => intro acc x; simp
  | cons c rest ih =>
    intro acc x
    rw [List.foldl_cons, ih (setAdd acc c) x, setAdd_mem]
    constructor
    · rintro ((h | h) | h)
      · exact Or.inl h
      · exact Or.inr (by simp [h])
      · exact Or.inr (by simp [h])
    · rintro (h | h)
      · exact Or.inl (Or.inl h)
      · rcases List.mem_cons.mp h with h | h
        · exact Or.inl (Or.inr h)
        · exact Or.inr h

theorem foldl_setAdd_nodup {α : Type} [DecidableEq α] (l : List α) :
    ∀ acc : List α, acc.Nodup → (l.foldl setAdd acc).Nodup := by
  induction l with
  | nil => intro acc h; simpa
  | cons c rest ih =>
    intro acc h
    exact ih (setAdd acc c) (setAdd_nodup acc c h)

theorem dedupFirst_nodup {α : Type} [DecidableEq α] (l : List α) :
    (dedupFirst l).Nodup :=
  foldl_setAdd_nodup l [] List.nodup_nil

theorem dedupFirst_mem {α : Type} [DecidableEq α] (l : List α) (x : α) :
    x ∈ dedupFirst l ↔ x ∈ l := by
  unfold dedupFirst
  rw [foldl_setAdd_mem]
  simp

theorem joinFold_state (ws : Nat) (l : List String) :
    ∀ s : ServerState,
      l.foldl (fun st c => { st with room := joinRoom c ws st.room }) s =
        { s with room := l.foldl (fun r c => joinRoom c ws r) s.room } := by
  induction l with
  | nil => intro s; rfl
  | cons c rest ih =>
    intro s
    rw [List.foldl_cons, List.foldl_cons, ih]

theorem joinFold_regWF (ws : Nat) (l : List String) :
    ∀ rm : RoomState, RegWF rm → RegWF (l.foldl (fun r c => joinRoom c ws r) rm) := by
  induction l with
  | nil => intro rm h; simpa
  | cons c rest ih =>
    intro rm h
    exact ih (joinRoom c ws rm) (joinRoom_regWF c ws rm h)

theorem joinFold_wsRoomsOf_self (ws : Nat) (l : List String) :
    ∀ rm : RoomState,
      wsRoomsOf (l.foldl (fun r c => joinRoom c ws r) rm) ws =
        l.foldl setAdd (wsRoomsOf rm ws) := by
  induction l with
  | nil => intro rm; rfl
  | cons c rest ih =>
    intro rm
    rw [List.foldl_cons, List.foldl_cons, ih (joinRoom c ws rm), joinRoom_wsRoomsOf]
    simp

theorem joinFold_wsr_other (ws w : Nat) (l : List String) (h : ¬ w = ws) :
    ∀ rm : RoomState,
      mget (l.foldl (fun r c => joinRoom c ws r) rm).wsRooms w = mget rm.wsRooms w := by
  induction l with
  | nil => intro rm; rfl
  | cons c rest ih =>
    intro rm
    rw [List.foldl_cons, ih (joinRoom c ws rm), joinRoom_wsr_other c ws w rm h]

theorem joinFold_mem (ws : Nat) (l : List String) :
    ∀ (rm : RoomState) (w : Nat) (c : String),
      w ∈ roomMembers (l.foldl (fun r c => joinRoom c ws r) rm) c ↔
        w ∈ roomMembers rm c ∨ (w = ws ∧ c ∈ l) := by
  induction l with
  | nil => intro rm w c; simp
  | cons c0 rest ih =>
    intro rm w c
    rw [List.foldl_cons, ih (joinRoom c0 ws rm) w c, joinRoom_roomMembers]
    by_cases hc : c = c0
    · subst hc
      simp only [eq_self_iff_true, if_true, setAdd_mem, List.mem_cons, true_or]
      tauto
    · simp only [if_neg hc, List.mem_cons]
      tauto

/-! Lemmas about the leave loop of teardown. -/

theorem roomDrop_none {rs : List (String × List Nat)} {c : String} {ws : Nat}
    (h : mget rs c = none) : roomDrop rs c ws = rs := by
  unfold roomDrop
  rw [h]

theorem roomDrop_some {rs : List (String × List Nat)} {c : String} {ws : Nat}
    {l : List Nat} (h : mget rs c = some l) :
    roomDrop rs c ws =
      if l.erase ws = [] then mdel rs c else mset rs c (l.erase ws) := by
  unfold roomDrop
  rw [h]

theorem roomDrop_other (rs : List (String × List Nat)) (c c' : String) (ws : Nat)
    (h : ¬ c' = c) : mget (roomDrop rs c ws) c' = mget rs c' := by
  cases hg : mget rs c with
  | none => rw [roomDrop_none hg]
  | some l =>
    rw [roomDrop_some hg]
    by_cases he : l.erase ws = []
    · rw [if_pos he]
      exact mget_mdel_ne _ _ _ h
    · rw [if_neg he]
      exact mget_mset_ne _ _ _ _ h

theorem roomDrop_entry (rs : List (String × List Nat)) (c c' : String) (ws : Nat)
    (l' : List Nat) (h : mget (roomDrop rs c ws) c' = some l') :
    mget rs c' = some l' ∨ ∃ l, mget rs c' = some l ∧ l' = l.erase ws := by
  by_cases hc : c' = c
  · subst hc
    cases hg : mget rs c' with
    | none =>
      rw [roomDrop_none hg, hg] at h
      exact Option.noConfusion h
    | some l =>
      rw [roomDrop_some hg] at h
      by_cases he : l.erase ws = []
      · rw [if_pos he, mget_mdel_self] at h
        exact Option.noConfusion h
      · rw [if_neg he, mget_mset_self] at h
        cases h
        exact Or.inr ⟨l, rfl, rfl⟩
  · rw [roomDrop_other rs c c' ws hc] at h
    exact Or.inl h

theorem dropFold_entry (ws : Nat) (cl : List String) :
    ∀ (rs : List (String × List Nat)) (c : String) (l' : List Nat),
      mget (cl.foldl (fun rs c => roomDrop rs c ws) rs) c = some l' →
      mget rs c = some l' ∨ ∃ l, mget rs c = some l ∧ List.Sublist l' l := by
  induction cl with
  | nil =>
    intro rs c l' h
    exact Or.inl h
  | cons c0 rest ih =>
    intro rs c l' h
    rw [List.foldl_cons] at h
    rcases ih (roomDrop rs c0 ws) c l' h with h2 | ⟨l, hl, hsub⟩
    · rcases roomDrop_entry rs c0 c ws l' h2 with h3 | ⟨l, hl, he⟩
      · exact Or.inl h3
      · exact Or.inr ⟨l, hl, he ▸ List.erase_sublist _ _⟩
    · rcases roomDrop_entry rs c0 c ws l hl with h3 | ⟨l2, hl2, he⟩
      · exact Or.inr ⟨l, h3, hsub⟩
      · exact Or.inr ⟨l2, hl2, hsub.trans (he ▸ List.erase_sublist _ _)⟩

theorem dropFold_nodup (ws : Nat) (cl : List String)
    (rs : List (String × List Nat)) (hnd : ∀ c l, mget rs c = some l → l.Nodup) :
    ∀ c l, mget (cl.foldl (fun rs c => roomDrop rs c ws) rs) c = some l → l.Nodup := by
  intro c l h
  rcases dropFold_entry ws cl rs c l h with h2 | ⟨l0, hl0, hsub⟩
  · exact hnd c l h2
  · exact List.Nodup.sublist hsub (hnd c l0 hl0)

theorem erase_eq_nil_cases {l : List Nat} {ws : Nat} (h : l.erase ws = []) :
    l = [] ∨ l = [ws] := by
  cases l with
  | nil => exact Or.inl rfl
  | cons x rest =>
    by_cases hx : x = ws
    · subst hx
      rw [List.erase_cons_head] at h
      subst h
      exact Or.inr rfl
    · rw [List.erase_cons_tail] at h
      · exact absurd h (by simp)
      · simp [hx]

theorem roomDrop_no_ws (rs : List (String × List Nat)) (c : String) (ws : Nat)
    (hnd : ∀ c2 l, mget rs c2 = some l → l.Nodup) :
    ¬ ws ∈ (mget (roomDrop rs c ws) c).getD [] := by
  cases hg : mget rs c with
  | none => simp [roomDrop_none hg, hg]
  | some l =>
    rw [roomDrop_some hg]
    by_cases he : l.erase ws = []
    · rw [if_pos he, mget_mdel_self]
      simp
    · rw [if_neg he, mget_mset_self]
      simpa using (hnd c l hg).not_mem_erase

theorem roomDrop_not_mem_mono (rs : List (String × List Nat)) (c c0 : String)
    (ws w : Nat) (h : ¬ w ∈ (mget rs c).getD []) :
    ¬ w ∈ (mget (roomDrop rs c0 ws) c).getD [] := by
  intro hmem
  apply h
  cases hg : mget (roomDrop rs c0 ws) c with
  | none => rw [hg] at hmem; exact absurd hmem (List.not_mem_nil w)
  | some l' =>
    rw [hg] at hmem
    simp only [Option.getD_some] at hmem
    rcases roomDrop_entry rs c0 c ws l' hg with h2 | ⟨l, hl, he⟩
    · rw [h2]
      simpa using hmem
    · rw [hl]
      simp only [Option.getD_some]
      exact List.mem_of_mem_erase (he ▸ hmem)

theorem dropFold_no_ws (ws : Nat) (cl : List String) :
    ∀ (rs : List (String × List Nat)) (c : String),
      (∀ c2 l, mget rs c2 = some l → l.Nodup) →
      (¬ ws ∈ (mget rs c).getD [] ∨ c ∈ cl) →
      ¬ ws ∈ (mget (cl.foldl (fun rs c => roomDrop rs c ws) rs) c).getD [] := by
  induction cl with
  | nil =>
    intro rs c _ h
    rcases h with h | h
    · exact h
    · exact absurd h (List.not_mem_nil c)
  | cons c0 rest ih =>
    intro rs c hnd h
    rw [List.foldl_cons]
    have hnd1 : ∀ c2 l, mget (roomDrop rs c0 ws) c2 = some l → l.Nodup := by
      intro c2 l hl
      rcases roomDrop_entry rs c0 c2 ws l hl with h2 | ⟨l0, hl0, he⟩
      · exact hnd c2 l h2
      · exact he ▸ (hnd c2 l0 hl0).erase ws
    apply ih (roomDrop rs c0 ws) c hnd1
    rcases h with h | h
    · exact Or.inl (roomDrop_not_mem_mono rs c c0 ws ws h)
    · rcases List.mem_cons.mp h with h2 | h2
      · subst h2
        exact Or.inl (roomDrop_no_ws rs c ws hnd)
      · exact Or.inr h2

theorem roomDrop_mem_other (rs : List (String × List Nat)) (c c0 : String)
    (ws w : Nat) (hw : ¬ w = ws) :
    w ∈ (mget (roomDrop rs c0 ws) c).getD [] ↔ w ∈ (mget rs c).getD [] := by
  by_cases hc : c = c0
  · subst hc
    cases hg : mget rs c with
    | none => rw [roomDrop_none hg, hg]
    | some l =>
      rw [roomDrop_some hg]
      by_cases he : l.erase ws = []
      · rw [if_pos he, mget_mdel_self]
        rcases erase_eq_nil_cases he with h2 | h2 <;> subst h2 <;> simp [hw]
      · rw [if_neg he, mget_mset_self]
        simp only [Option.getD_some]
        exact List.mem_erase_of_ne hw
  · rw [roomDrop_other rs c0 c ws hc]

theorem dropFold_mem_other (ws w : Nat) (hw : ¬ w = ws) (cl : List String) :
    ∀ (rs : List (String × List Nat)) (c : String),
      w ∈ (mget (cl.foldl (fun rs c => roomDrop rs c ws) rs) c).getD [] ↔
        w ∈ (mget rs c).getD [] := by
  induction cl with
  | nil => intro rs c; rfl
  | cons c0 rest ih =>
    intro rs c
    rw [List.foldl_cons, ih (roomDrop rs c0 ws) c, roomDrop_mem_other rs c c0 ws w hw]

theorem leaveAll_of_none {ws : Nat} {rm : RoomState}
    (h : mget rm.wsRooms ws = none) : leaveAllRooms ws rm = rm := by
  unfold leaveAllRooms
  rw [h]

theorem leaveAll_of_some {ws : Nat} {rm : RoomState} {cl : List String}
    (h : mget rm.wsRooms ws = some cl) :
    leaveAllRooms ws rm =
      ⟨cl.foldl (fun rs c => roomDrop rs c ws) rm.rooms, mdel rm.wsRooms ws⟩ := by
  unfold leaveAllRooms
  rw [h]

theorem leaveAll_no_ws (ws : Nat) (rm : RoomState) (hwf : RegWF rm) :
    ∀ c, ¬ ws ∈ roomMembers (leaveAllRooms ws rm) c := by
  intro c
  cases hg : mget rm.wsRooms ws with
  | none =>
    rw [leaveAll_of_none hg]
    intro hmem
    have := (hwf.link c ws).mp hmem
    rw [wsRoomsOf, hg] at this
    exact absurd this (List.not_mem_nil c)
  | some cl =>
    rw [leaveAll_of_some hg]
    unfold roomMembers
    apply dropFold_no_ws ws cl rm.rooms c hwf.roomsNodup
    by_cases hc : c ∈ cl
    · exact Or.inr hc
    · left
      intro hmem
      have : ws ∈ roomMembers rm c := by simpa [roomMembers] using hmem
      have h2 := (hwf.link c ws).mp this
      rw [wsRoomsOf, hg] at h2
      exact absurd h2 hc

theorem leaveAll_wsr_self (ws : Nat) (rm : RoomState) :
    mget (leaveAllRooms ws rm).wsRooms ws = none := by
  cases hg : mget rm.wsRooms ws with
  | none => rw [leaveAll_of_none hg]; exact hg
  | some cl => rw [leaveAll_of_some hg]; exact mget_mdel_self _ _

theorem leaveAll_wsr_other (ws w : Nat) (rm : RoomState) (h : ¬ w = ws) :
    mget (leaveAllRooms ws rm).wsRooms w = mget rm.wsRooms w := by
  cases hg : mget rm.wsRooms ws with
  | none => rw [leaveAll_of_none hg]
  | some cl => rw [leaveAll_of_some hg]; exact mget_mdel_ne _ _ _ h

theorem leaveAll_mem_other (ws w : Nat) (rm : RoomState) (c : String)
    (h : ¬ w = ws) :
    w ∈ roomMembers (leaveAllRooms ws rm) c ↔ w ∈ roomMembers rm c := by
  cases hg : mget rm.wsRooms ws with
  | none => rw [leaveAll_of_none hg]
  | some cl =>
    rw [leaveAll_of_some hg]
    unfold roomMembers
    exact dropFold_mem_other ws w h cl rm.rooms c

theorem leaveAll_rooms_nodup (ws : Nat) (rm : RoomState) (hwf : RegWF rm) :
    ∀ c l, mget (leaveAllRooms ws rm).rooms c = some l → l.Nodup := by
  cases hg : mget rm.wsRooms ws with
  | none => rw [leaveAll_of_none hg]; exact hwf.roomsNodup
  | some cl =>
    rw [leaveAll_of_some hg]
    exact dropFold_nodup ws cl rm.rooms hwf.roomsNodup

theorem leaveAll_rooms_nonempty (ws : Nat) (rm : RoomState) (hwf : RegWF rm) :
    ∀ c l, mget (leaveAllRooms ws rm).rooms c = some l → ¬ l = [] := by
  intro c l hl hnil
  subst hnil
  cases hg : mget rm.wsRooms ws with
  | none =>
    rw [leaveAll_of_none hg] at hl
    exact hwf.roomsNonempty c [] hl rfl
  | some cl =>
    rw [leaveAll_of_some hg] at hl
    have hstep : ∀ (cl2 : List String) (rs : List (String × List Nat)),
        (∀ c2 l2, mget rs c2 = some l2 → ¬ l2 = []) →
        ∀ c2 l2, mget (cl2.foldl (fun rs c => roomDrop rs c ws) rs) c2 = some l2 →
          ¬ l2 = [] := by
      intro cl2
      induction cl2 with
      | nil => intro rs hne c2 l2 h2; exact hne c2 l2 h2
      | cons c0 rest ih =>
        intro rs hne c2 l2 h2
        rw [List.foldl_cons] at h2
        apply ih (roomDrop rs c0 ws) ?_ c2 l2 h2
        intro c3 l3 h3
        by_cases hc3 : c3 = c0
        · subst hc3
          cases hg3 : mget rs c3 with
          | none =>
            rw [roomDrop_none hg3, hg3] at h3
            exact Option.noConfusion h3
          | some l0 =>
            rw [roomDrop_some hg3] at h3
            by_cases he : l0.erase ws = []
            · rw [if_pos he, mget_mdel_self] at h3
              exact Option.noConfusion h3
            · rw [if_neg he, mget_mset_self] at h3
              cases h3
              exact he
        · rw [roomDrop_other rs c0 c3 ws hc3] at h3
          exact hne c3 l3 h3
    exact hstep cl rm.rooms hwf.roomsNonempty c [] hl rfl

theorem leaveAll_regWF (ws : Nat) (rm : RoomState) (hwf : RegWF rm) :
    RegWF (leaveAllRooms ws rm) := by
  refine ⟨leaveAll_rooms_nodup ws rm hwf, leaveAll_rooms_nonempty ws rm hwf, ?_, ?_, ?_⟩
  · intro w cl hcl
    by_cases hw : w = ws
    · subst hw
      rw [leaveAll_wsr_self] at hcl
      exact Option.noConfusion hcl
    · rw [leaveAll_wsr_other ws w rm hw] at hcl
      exact hwf.wsNodup w cl hcl
  · intro w cl hcl
    by_cases hw : w = ws
    · subst hw
      rw [leaveAll_wsr_self] at hcl
      exact Option.noConfusion hcl
    · rw [leaveAll_wsr_other ws w rm hw] at hcl
      exact hwf.wsNonempty w cl hcl
  · intro c w
    by_cases hw : w = ws
    · subst hw
      constructor
      · intro hmem
        exact absurd hmem (leaveAll_no_ws w rm hwf c)
      · intro hmem
        rw [wsRoomsOf, leaveAll_wsr_self] at hmem
        exact absurd hmem (List.not_mem_nil c)
    · rw [leaveAll_mem_other ws w rm c hw]
      have : wsRoomsOf (leaveAllRooms ws rm) w = wsRoomsOf rm w := by
        rw [wsRoomsOf, wsRoomsOf, leaveAll_wsr_other ws w rm hw]
      rw [this]
      exact hwf.link c w

/-! Equation lemmas for the presence service operations. -/

theorem getUserByWs_of_none {s : ServerState} {ws : Nat}
    (h : mget s.pres.wsToUserId ws = none) : getUserByWs s ws = none := by
  unfold getUserByWs
  rw [h]

theorem getUserByWs_of_some {s : ServerState} {ws : Nat} {uid : String}
    (h : mget s.pres.wsToUserId ws = some uid) :
    getUserByWs s ws = mget s.pres.connectedUsers uid := by
  unfold getUserByWs
  rw [h]

theorem removeUser_of_none {s : ServerState} {ws : Nat}
    (h : mget s.pres.wsToUserId ws = none) : removeUser ws s = (none, s) := by
  unfold removeUser
  rw [h]

theorem removeUser_of_dangling {s : ServerState} {ws : Nat} {uid : String}
    (h : mget s.pres.wsToUserId ws = some uid)
    (h2 : mget s.pres.connectedUsers uid = none) : removeUser ws s = (none, s) := by
  unfold removeUser
  rw [h]
  dsimp only
  rw [h2]

theorem removeUser_of_found {s : ServerState} {ws : Nat} {uid : String}
    {u : ConnectedUser} (h : mget s.pres.wsToUserId ws = some uid)
    (h2 : mget s.pres.connectedUsers uid = some u) :
    removeUser ws s =
      (some u,
       { s with
         pres := ⟨mdel s.pres.connectedUsers uid, mdel s.pres.wsToUserId ws⟩
         pending := (mvalues u.typingTimers).foldl clearTimeout s.pending }) := by
  unfold removeUser
  rw [h]
  dsimp only
  rw [h2]

theorem handleDisconnection_of_none {s : ServerState} {ws : Nat}
    (h : getUserByWs s ws = none) : handleDisconnection ws s = ([], s) := by
  unfold handleDisconnection
  rw [h]

theorem handleDisconnection_of_found {s : ServerState} {ws : Nat}
    {u : ConnectedUser} (h : getUserByWs s ws = some u) :
    handleDisconnection ws s =
      (broadcastPresence u.userId false u.chatRooms
         (leaveAllRooms ws (removeUser ws s).2.room),
       { (removeUser ws s).2 with
         room := leaveAllRooms ws (removeUser ws s).2.room }) := by
  unfold handleDisconnection
  rw [h]

theorem clearTypingTimer_of_no_user {s : ServerState} {uid : String} {c : String}
    (h : mget s.pres.connectedUsers uid = none) : clearTypingTimer uid c s = s := by
  unfold clearTypingTimer
  rw [h]

theorem clearTypingTimer_of_no_timer {s : ServerState} {uid : String} {c : String}
    {u : ConnectedUser} (h : mget s.pres.connectedUsers uid = some u)
    (h2 : mget u.typingTimers c = none) : clearTypingTimer uid c s = s := by
  unfold clearTypingTimer
  rw [h]
  dsimp only
  rw [h2]

theorem clearTypingTimer_of_timer {s : ServerState} {uid : String} {c : String}
    {u : ConnectedUser} {tid : Nat} (h : mget s.pres.connectedUsers uid = some u)
    (h2 : mget u.typingTimers c = some tid) :
    clearTypingTimer uid c s =
      { s with
        pres := ⟨mset s.pres.connectedUsers uid
                   { u with typingTimers := mdel u.typingTimers c },
                 s.pres.wsToUserId⟩
        pending := clearTimeout s.pending tid } := by
  unfold clearTypingTimer
  rw [h]
  dsimp only
  rw [h2]

theorem setTypingTimer_of_no_user {s : ServerState} {uid : String} {c : String}
    {tid : Nat} (h : mget s.pres.connectedUsers uid = none) :
    setTypingTimer uid c tid s = s := by
  unfold setTypingTimer
  rw [h]

theorem setTypingTimer_of_user_fresh {s : ServerState} {uid : String} {c : String}
    {tid : Nat} {u : ConnectedUser} (h : mget s.pres.connectedUsers uid = some u)
    (h2 : mget u.typingTimers c = none) :
    setTypingTimer uid c tid s =
      { s with
        pres := ⟨mset s.pres.connectedUsers uid
                   { u with typingTimers := mset u.typingTimers c tid },
                 s.pres.wsToUserId⟩ } := by
  unfold setTypingTimer
  rw [h]
  dsimp only
  rw [h2]

theorem mem_clearTimeout {pending : List Timer} {tid : Nat} {t : Timer} :
    t ∈ clearTimeout pending tid ↔ t ∈ pending ∧ ¬ t.id = tid := by
  unfold clearTimeout
  rw [List.mem_filter]
  simp

theorem mdel_of_none {α β : Type} [DecidableEq α] {m : List (α × β)} {k : α}
    (h : mget m k = none) : mdel m k = m := by
  induction m with
  | nil => rfl
  | cons p rest ih =>
    by_cases hk : p.1 = k
    · rw [mget, if_pos hk] at h
      exact Option.noConfusion h
    · rw [mget, if_neg hk] at h
      rw [mdel, if_neg hk, ih h]

theorem clearTimeout_sublist (pending : List Timer) (tid : Nat) :
    List.Sublist (clearTimeout pending tid) pending :=
  List.filter_sublist pending

theorem srvInv_clearTypingTimer (s : ServerState) (used : List Nat)
    (uid : String) (c : String) (hinv : SrvInv s used) :
    SrvInv (clearTypingTimer uid c s) used := by
  cases hcu : mget s.pres.connectedUsers uid with
  | none => rw [clearTypingTimer_of_no_user hcu]; exact hinv
  | some u =>
    cases htt : mget u.typingTimers c with
    | none => rw [clearTypingTimer_of_no_timer hcu htt]; exact hinv
    | some tid =>
      rw [clearTypingTimer_of_timer hcu htt]
      have hback := hinv.presBack uid u hcu
      refine ⟨hinv.reg, ?_, ?_, ?_, ?_, hinv.regLive, ?_, ?_, ?_, hinv.usedWs,
        hinv.usedRoom, ?_⟩
      · intro ws2 uid2 h
        obtain ⟨u2, hcu2, hw2, hid2⟩ := hinv.presLink ws2 uid2 h
        by_cases he : uid2 = uid
        · subst he
          rw [hcu] at hcu2
          cases hcu2
          exact ⟨_, mget_mset_self _ _ _, hw2, hid2⟩
        · exact ⟨u2, by rw [mget_mset_ne _ _ _ _ he]; exact hcu2, hw2, hid2⟩
      · intro uid2 u2 h
        by_cases he : uid2 = uid
        · subst he
          rw [mget_mset_self] at h
          cases h
          exact ⟨hback.1, hback.2⟩
        · rw [mget_mset_ne _ _ _ _ he] at h
          exact hinv.presBack uid2 u2 h
      · intro uid2 u2 h
        by_cases he : uid2 = uid
        · subst he
          rw [mget_mset_self] at h
          cases h
          exact hinv.chatNodup uid2 u hcu
        · rw [mget_mset_ne _ _ _ _ he] at h
          exact hinv.chatNodup uid2 u2 h
      · intro uid2 u2 h
        by_cases he : uid2 = uid
        · subst he
          rw [mget_mset_self] at h
          cases h
          exact hinv.sessRooms uid2 u hcu
        · rw [mget_mset_ne _ _ _ _ he] at h
          exact hinv.sessRooms uid2 u2 h
      · intro t ht
        obtain ⟨htp, htid⟩ := mem_clearTimeout.mp ht
        obtain ⟨hw, u3, hcu3, hwu3, htt3, hmem3⟩ := hinv.timerLink t htp
        refine ⟨hw, ?_⟩
        by_cases he : t.userId = uid
        · subst he
          rw [hcu] at hcu3
          cases hcu3
          refine ⟨_, mget_mset_self _ _ _, hwu3, ?_, hmem3⟩
          have hcn : ¬ t.chatId = c := by
            intro hcc
            rw [hcc, htt] at htt3
            cases htt3
            exact htid rfl
          rw [mget_mdel_ne _ _ _ hcn]
          exact htt3
        · exact ⟨u3, by rw [mget_mset_ne _ _ _ _ he]; exact hcu3, hwu3, htt3, hmem3⟩
      · exact hinv.timerIds.sublist ((clearTimeout_sublist s.pending tid).map _)
      · intro t ht
        exact hinv.timerFresh t (mem_clearTimeout.mp ht).1
      · intro t ht
        exact hinv.usedTimer t (mem_clearTimeout.mp ht).1

theorem srvInv_schedule (s : ServerState) (used : List Nat) (ws : Nat)
    (uid uname c : String) (u : ConnectedUser) (hinv : SrvInv s used)
    (hws : mget s.pres.wsToUserId ws = some uid)
    (hu : mget s.pres.connectedUsers uid = some u)
    (hwsu : u.ws = ws) (huid : u.userId = uid)
    (hmem : c ∈ u.chatRooms) (hnone : mget u.typingTimers c = none) :
    SrvInv (setTypingTimer uid c s.nextTimerId
      { s with pending := s.pending ++ [⟨s.nextTimerId, ws, uid, uname, c⟩],
               nextTimerId := s.nextTimerId + 1 }) used := by
  have hstt := @setTypingTimer_of_user_fresh
    { s with pending := s.pending ++ [⟨s.nextTimerId, ws, uid, uname, c⟩],
             nextTimerId := s.nextTimerId + 1 }
    uid c s.nextTimerId u hu hnone
  rw [hstt]
  refine ⟨hinv.reg, ?_, ?_, ?_, ?_, hinv.regLive, ?_, ?_, ?_, hinv.usedWs,
    hinv.usedRoom, ?_⟩
  · intro ws2 uid2 h
    obtain ⟨u2, hcu2, hw2, hid2⟩ := hinv.presLink ws2 uid2 h
    by_cases he : uid2 = uid
    · subst he
      rw [hu] at hcu2
      cases hcu2
      exact ⟨_, mget_mset_self _ _ _, hw2, hid2⟩
    · exact ⟨u2, by rw [mget_mset_ne _ _ _ _ he]; exact hcu2, hw2, hid2⟩
  · intro uid2 u2 h
    by_cases he : uid2 = uid
    · subst he
      rw [mget_mset_self] at h
      cases h
      exact ⟨huid, by rw [hwsu]; exact hws⟩
    · rw [mget_mset_ne _ _ _ _ he] at h
      exact hinv.presBack uid2 u2 h
  · intro uid2 u2 h
    by_cases he : uid2 = uid
    · subst he
      rw [mget_mset_self] at h
      cases h
      exact hinv.chatNodup uid2 u hu
    · rw [mget_mset_ne _ _ _ _ he] at h
      exact hinv.chatNodup uid2 u2 h
  · intro uid2 u2 h
    by_cases he : uid2 = uid
    · subst he
      rw [mget_mset_self] at h
      cases h
      exact hinv.sessRooms uid2 u hu
    · rw [mget_mset_ne _ _ _ _ he] at h
      exact hinv.sessRooms uid2 u2 h
  · intro t ht
    rcases List.mem_append.mp ht with htp | ht0
    · obtain ⟨hw, u3, hcu3, hwu3, htt3, hmem3⟩ := hinv.timerLink t htp
      refine ⟨hw, ?_⟩
      by_cases he : t.userId = uid
      · subst he
        rw [hu] at hcu3
        cases hcu3
        refine ⟨_, mget_mset_self _ _ _, hwu3, ?_, hmem3⟩
        have hcn : ¬ t.chatId = c := by
          intro hcc
          rw [hcc, hnone] at htt3
          exact Option.noConfusion htt3
        rw [mget_mset_ne _ _ _ _ hcn]
        exact htt3
      · exact ⟨u3, by rw [mget_mset_ne _ _ _ _ he]; exact hcu3, hwu3, htt3, hmem3⟩
    · rcases List.mem_singleton.mp ht0 with rfl
      refine ⟨hws, _, mget_mset_self _ _ _, hwsu, mget_mset_self _ _ _, hmem⟩
  · rw [List.map_append]
    rw [List.nodup_append]
    refine ⟨hinv.timerIds, List.nodup_singleton _, ?_⟩
    intro x hx
    simp only [List.map_cons, List.map_nil, List.mem_singleton]
    intro he
    rcases List.mem_map.mp hx with ⟨t, htp, rfl⟩
    have := hinv.timerFresh t htp
    rw [he] at this
    omega
  · intro t ht
    dsimp only at ht ⊢
    rcases List.mem_append.mp ht with htp | ht0
    · have := hinv.timerFresh t htp
      omega
    · rcases List.mem_singleton.mp ht0 with rfl
      exact Nat.lt_succ_self _
  · intro t ht
    dsimp only at ht
    rcases List.mem_append.mp ht with htp | ht0
    · exact hinv.usedTimer t htp
    · rcases List.mem_singleton.mp ht0 with rfl
      apply hinv.usedWs
      rw [hws]
      simp

theorem ctt_wsToUserId (uid : String) (c : String) (s : ServerState) :
    (clearTypingTimer uid c s).pres.wsToUserId = s.pres.wsToUserId := by
  cases hcu : mget s.pres.connectedUsers uid with
  | none => rw [clearTypingTimer_of_no_user hcu]
  | some u =>
    cases htt : mget u.typingTimers c with
    | none => rw [clearTypingTimer_of_no_timer hcu htt]
    | some tid => rw [clearTypingTimer_of_timer hcu htt]

theorem ctt_nextTimerId (uid : String) (c : String) (s : ServerState) :
    (clearTypingTimer uid c s).nextTimerId = s.nextTimerId := by
  cases hcu : mget s.pres.connectedUsers uid with
  | none => rw [clearTypingTimer_of_no_user hcu]
  | some u =>
    cases htt : mget u.typingTimers c with
    | none => rw [clearTypingTimer_of_no_timer hcu htt]
    | some tid => rw [clearTypingTimer_of_timer hcu htt]

theorem ctt_user_self {uid : String} {c : String} {s : ServerState}
    {u : ConnectedUser} (hcu : mget s.pres.connectedUsers uid = some u) :
    mget (clearTypingTimer uid c s).pres.connectedUsers uid =
      some { u with typingTimers := mdel u.typingTimers c } := by
  cases htt : mget u.typingTimers c with
  | none =>
    rw [clearTypingTimer_of_no_timer hcu htt, hcu, mdel_of_none htt]
  | some tid =>
    rw [clearTypingTimer_of_timer hcu htt]
    exact mget_mset_self _ _ _

theorem srvInv_typing (s : ServerState) (used : List Nat) (ws : Nat)
    (p : ChatTypingPayload) (r : HandlerOk) (hinv : SrvInv s used)
    (h : handleChatTyping ws p s = .ok r) : SrvInv r.2 used := by
  unfold handleChatTyping at h
  cases hu : getUserByWs s ws with
  | none =>
    rw [hu] at h
    exact Except.noConfusion h
  | some user =>
    rw [hu] at h
    dsimp only at h
    by_cases hc : p.chatId = ""
    · rw [if_pos hc] at h
      exact Except.noConfusion h
    · rw [if_neg hc] at h
      by_cases hm : ¬ p.chatId ∈ user.chatRooms
      · rw [if_pos hm] at h
        exact Except.noConfusion h
      · rw [if_neg hm] at h
        have hmem : p.chatId ∈ user.chatRooms := not_not.mp hm
        have hexists : ∃ uid, mget s.pres.wsToUserId ws = some uid ∧
            mget s.pres.connectedUsers uid = some user := by
          unfold getUserByWs at hu
          cases hw : mget s.pres.wsToUserId ws with
          | none => rw [hw] at hu; exact Option.noConfusion hu
          | some uid =>
            rw [hw] at hu
            exact ⟨uid, rfl, hu⟩
        obtain ⟨uid, hw, hcu⟩ := hexists
        obtain ⟨u2, hcu2, hw2, hid2⟩ := hinv.presLink ws uid hw
        rw [hcu] at hcu2
        cases hcu2
        cases hit : p.isTyping
        · rw [hit] at h
          simp only [Bool.false_eq_true, if_neg] at h
          cases h
          exact srvInv_clearTypingTimer s used user.userId p.chatId hinv
        · rw [hit] at h
          simp only [if_pos] at h
          cases h
          dsimp only
          subst hid2
          have hinv1 := srvInv_clearTypingTimer s used user.userId p.chatId hinv
          have hws1 : mget (clearTypingTimer user.userId p.chatId s).pres.wsToUserId ws
              = some user.userId := by
            rw [ctt_wsToUserId]
            exact hw
          have hu1 := @ctt_user_self user.userId p.chatId s user hcu
          exact srvInv_schedule (clearTypingTimer user.userId p.chatId s) used ws
            user.userId user.userName p.chatId
            { user with typingTimers := mdel user.typingTimers p.chatId }
            hinv1 hws1 hu1 hw2 rfl hmem (mget_mdel_self _ _)

theorem handleChatMessage_state (ws : Nat) (p : ChatMessagePayload)
    (persist : Except HttpFailure MessageRec) (s : ServerState) (r : HandlerOk)
    (h : handleChatMessage ws p persist s = .ok r) : r.2 = s := by
  unfold handleChatMessage at h
  cases hu : getUserByWs s ws with
  | none => rw [hu] at h; exact Except.noConfusion h
  | some user =>
    rw [hu] at h
    dsimp only at h
    by_cases hc : p.chatId = ""
    · rw [if_pos hc] at h; exact Except.noConfusion h
    · rw [if_neg hc] at h
      by_cases hct : p.content = ""
      · rw [if_pos hct] at h; exact Except.noConfusion h
      · rw [if_neg hct] at h
        by_cases hm : ¬ p.chatId ∈ user.chatRooms
        · rw [if_pos hm] at h; exact Except.noConfusion h
        · rw [if_neg hm] at h
          cases hp : liftHttp persist with
          | error e => rw [hp] at h; exact Except.noConfusion h
          | ok rec1 =>
            rw [hp] at h
            cases h
            rfl

theorem handleChatRead_state (ws : Nat) (p : ChatReadPayload)
    (persist : Except HttpFailure Unit) (now : String) (s : ServerState)
    (r : HandlerOk) (h : handleChatRead ws p persist now s = .ok r) : r.2 = s := by
  unfold handleChatRead at h
  cases hu : getUserByWs s ws with
  | none => rw [hu] at h; exact Except.noConfusion h
  | some user =>
    rw [hu] at h
    dsimp only at h
    by_cases hc : p.chatId = ""
    · rw [if_pos hc] at h; exact Except.noConfusion h
    · rw [if_neg hc] at h
      by_cases hmi : p.messageId = ""
      · rw [if_pos hmi] at h; exact Except.noConfusion h
      · rw [if_neg hmi] at h
        by_cases hm : ¬ p.chatId ∈ user.chatRooms
        · rw [if_pos hm] at h; exact Except.noConfusion h
        · rw [if_neg hm] at h
          cases hp : liftHttp persist with
          | error e => rw [hp] at h; exact Except.noConfusion h
          | ok z =>
            rw [hp] at h
            cases h
            rfl

theorem srvInv_frame (mx : Nat) (ws : Nat) (f : RawFrame) (ds : Downstream)
    (now : String) (s : ServerState) (used : List Nat) (hinv : SrvInv s used) :
    SrvInv (handleMessage mx ws f ds now s).state used := by
  unfold handleMessage
  by_cases hsz : f.charLen > mx
  · rw [if_pos hsz]
    exact hinv
  · rw [if_neg hsz]
    cases hp : f.parsed with
    | none => exact hinv
    | some pf =>
      cases pf with
      | badType => exact hinv
      | unknown ty => exact hinv
      | ping => exact hinv
      | chatMessage p =>
        dsimp only
        cases hh : handleChatMessage ws p ds.sendMessageResult s with
        | error e => exact hinv
        | ok r =>
          dsimp only
          rw [handleChatMessage_state ws p ds.sendMessageResult s r hh]
          exact hinv
      | chatRead p =>
        dsimp only
        cases hh : handleChatRead ws p ds.markReadResult now s with
        | error e => exact hinv
        | ok r =>
          dsimp only
          rw [handleChatRead_state ws p ds.markReadResult now s r hh]
          exact hinv
      | chatTyping p =>
        dsimp only
        cases hh : handleChatTyping ws p s with
        | error e => exact hinv
        | ok r =>
          dsimp only
          exact srvInv_typing s used ws p r hinv hh

theorem srvInv_fire (s : ServerState) (used : List Nat) (t : Timer)
    (hinv : SrvInv s used) : SrvInv (fireTimer t s).2 used := by
  unfold fireTimer
  refine ⟨hinv.reg, hinv.presLink, hinv.presBack, hinv.chatNodup, hinv.sessRooms,
    hinv.regLive, ?_, ?_, ?_, hinv.usedWs, hinv.usedRoom, ?_⟩
  · intro t2 ht2
    exact hinv.timerLink t2 (List.mem_filter.mp ht2).1
  · exact hinv.timerIds.sublist ((List.filter_sublist s.pending).map _)
  · intro t2 ht2
    exact hinv.timerFresh t2 (List.mem_filter.mp ht2).1
  · intro t2 ht2
    exact hinv.usedTimer t2 (List.mem_filter.mp ht2).1

theorem mget_mdel_inv {α β : Type} [DecidableEq α] {m : List (α × β)} {k k' : α}
    {v : β} (h : mget (mdel m k) k' = some v) : ¬ k' = k ∧ mget m k' = some v := by
  by_cases he : k' = k
  · subst he
    rw [mget_mdel_self] at h
    exact Option.noConfusion h
  · rw [mget_mdel_ne _ _ _ he] at h
    exact ⟨he, h⟩

theorem mget_mset_inv {α β : Type} [DecidableEq α] {m : List (α × β)} {k k' : α}
    {v v' : β} (h : mget (mset m k v) k' = some v') :
    (k' = k ∧ v' = v) ∨ (¬ k' = k ∧ mget m k' = some v') := by
  by_cases he : k' = k
  · subst he
    rw [mget_mset_self] at h
    cases h
    exact Or.inl ⟨rfl, rfl⟩
  · rw [mget_mset_ne _ _ _ _ he] at h
    exact Or.inr ⟨he, h⟩

theorem foldlClear_mem (ids : List Nat) :
    ∀ (pending : List Timer) (t : Timer),
      t ∈ ids.foldl clearTimeout pending → t ∈ pending ∧ ¬ t.id ∈ ids := by
  induction ids with
  | nil =>
    intro pending t h
    exact ⟨h, List.not_mem_nil _⟩
  | cons i rest ih =>
    intro pending t h
    rw [List.foldl_cons] at h
    obtain ⟨h1, h2⟩ := ih (clearTimeout pending i) t h
    obtain ⟨h3, h4⟩ := mem_clearTimeout.mp h1
    refine ⟨h3, ?_⟩
    intro hmem
    rcases List.mem_cons.mp hmem with he | he
    · exact h4 he
    · exact h2 he

theorem foldlClear_sublist (ids : List Nat) :
    ∀ pending : List Timer, List.Sublist (ids.foldl clearTimeout pending) pending := by
  induction ids with
  | nil => intro pending; exact List.Sublist.refl pending
  | cons i rest ih =>
    intro pending
    rw [List.foldl_cons]
    exact (ih (clearTimeout pending i)).trans (clearTimeout_sublist pending i)

theorem mget_mem_values {α β : Type} [DecidableEq α] {m : List (α × β)} {k : α}
    {v : β} (h : mget m k = some v) : v ∈ mvalues m := by
  induction m with
  | nil => exact Option.noConfusion h
  | cons p rest ih =>
    rw [mget] at h
    by_cases hk : p.1 = k
    · rw [if_pos hk] at h
      cases h
      simp [mvalues]
    · rw [if_neg hk] at h
      simp only [mvalues, List.map_cons, List.mem_cons]
      exact Or.inr (by simpa [mvalues] using ih h)

theorem srvInv_close (s : ServerState) (used : List Nat) (ws : Nat)
    (hinv : SrvInv s used) : SrvInv (handleDisconnection ws s).2 used := by
  cases hgu : getUserByWs s ws with
  | none =>
    rw [handleDisconnection_of_none hgu]
    exact hinv
  | some u =>
    have hexists : ∃ uid, mget s.pres.wsToUserId ws = some uid ∧
        mget s.pres.connectedUsers uid = some u := by
      unfold getUserByWs at hgu
      cases hw : mget s.pres.wsToUserId ws with
      | none => rw [hw] at hgu; exact Option.noConfusion hgu
      | some uid =>
        rw [hw] at hgu
        exact ⟨uid, rfl, hgu⟩
    obtain ⟨uid, hw, hcu⟩ := hexists
    obtain ⟨u2, hcu2, hwsu, huid⟩ := hinv.presLink ws uid hw
    rw [hcu] at hcu2
    cases hcu2
    rw [handleDisconnection_of_found hgu, removeUser_of_found hw hcu]
    dsimp only
    have hreg1 := leaveAll_regWF ws s.room hinv.reg
    refine ⟨hreg1, ?_, ?_, ?_, ?_, ?_, ?_, ?_, ?_, ?_, ?_, ?_⟩
    · intro ws2 uid2 h
      obtain ⟨hne, h2⟩ := mget_mdel_inv h
      obtain ⟨u2, hcu2, hw2, hid2⟩ := hinv.presLink ws2 uid2 h2
      have huid2 : ¬ uid2 = uid := by
        intro he
        subst he
        rw [hcu] at hcu2
        cases hcu2
        exact hne (hw2 ▸ hwsu.symm ▸ rfl)
      exact ⟨u2, by rw [mget_mdel_ne _ _ _ huid2]; exact hcu2, hw2, hid2⟩
    · intro uid2 u2 h
      obtain ⟨hne, h2⟩ := mget_mdel_inv h
      obtain ⟨hid2, hw2⟩ := hinv.presBack uid2 u2 h2
      have hwne : ¬ u2.ws = ws := by
        intro he
        rw [he, hw] at hw2
        cases hw2
        exact hne rfl
      exact ⟨hid2, by rw [mget_mdel_ne _ _ _ hwne]; exact hw2⟩
    · intro uid2 u2 h
      exact hinv.chatNodup uid2 u2 (mget_mdel_inv h).2
    · intro uid2 u2 h
      obtain ⟨hne, h2⟩ := mget_mdel_inv h
      obtain ⟨hid2, hw2⟩ := hinv.presBack uid2 u2 h2
      have hwne : ¬ u2.ws = ws := by
        intro he
        rw [he, hw] at hw2
        cases hw2
        exact hne rfl
      rw [wsRoomsOf, leaveAll_wsr_other ws u2.ws s.room hwne]
      exact hinv.sessRooms uid2 u2 h2
    · intro w h
      dsimp only at h ⊢
      by_cases hwe : w = ws
      · subst hwe
        rw [leaveAll_wsr_self] at h
        exact absurd rfl h
      · rw [leaveAll_wsr_other ws w s.room hwe] at h
        rw [mget_mdel_ne _ _ _ hwe]
        exact hinv.regLive w h
    · intro t ht
      obtain ⟨htp, hids⟩ := foldlClear_mem (mvalues u.typingTimers) s.pending t ht
      obtain ⟨hw3, u3, hcu3, hwu3, htt3, hmem3⟩ := hinv.timerLink t htp
      have huid3 : ¬ t.userId = uid := by
        intro he
        rw [he, hcu] at hcu3
        cases hcu3
        exact hids (mget_mem_values htt3)
      have hown : ¬ t.owner = ws := by
        intro he
        rw [he, hw] at hw3
        cases hw3
        exact huid3 rfl
      refine ⟨by rw [mget_mdel_ne _ _ _ hown]; exact hw3,
        u3, by rw [mget_mdel_ne _ _ _ huid3]; exact hcu3, hwu3, htt3, hmem3⟩
    · exact hinv.timerIds.sublist ((foldlClear_sublist (mvalues u.typingTimers) s.pending).map _)
    · intro t ht
      exact hinv.timerFresh t (foldlClear_mem (mvalues u.typingTimers) s.pending t ht).1
    · intro w h
      dsimp only at h
      cases hg : mget (mdel s.pres.wsToUserId ws) w with
      | none => exact absurd hg h
      | some uid2 =>
        exact hinv.usedWs w
          (by rw [(mget_mdel_inv hg).2]; intro he; exact Option.noConfusion he)
    · intro w h
      by_cases hwe : w = ws
      · subst hwe
        rw [leaveAll_wsr_self] at h
        exact absurd rfl h
      · rw [leaveAll_wsr_other ws w s.room hwe] at h
        exact hinv.usedRoom w h
    · intro t ht
      exact hinv.usedTimer t (foldlClear_mem (mvalues u.typingTimers) s.pending t ht).1

theorem srvInv_open_core (s : ServerState) (used : List Nat) (ws : Nat)
    (uid un em ro tok : String) (at1 : Nat) (chatIds : List String)
    (hinv : SrvInv s used) (hfresh : ¬ ws ∈ used)
    (hoff : isUserOnline s uid = false) :
    SrvInv
      { addUser ⟨uid, un, em, ro, ws, tok, dedupFirst chatIds, at1, []⟩ s with
        room := chatIds.foldl (fun r c => joinRoom c ws r) s.room } (ws :: used) := by
  have hcu_off : mget s.pres.connectedUsers uid = none := by
    unfold isUserOnline mhas at hoff
    cases hg : mget s.pres.connectedUsers uid with
    | none => rfl
    | some u => rw [hg] at hoff; exact Bool.noConfusion hoff
  have hwsid : mget s.pres.wsToUserId ws = none := by
    cases hg : mget s.pres.wsToUserId ws with
    | none => rfl
    | some uid2 =>
      exact absurd (hinv.usedWs ws (by rw [hg]; intro he; exact Option.noConfusion he))
        hfresh
  have hroom : mget s.room.wsRooms ws = none := by
    cases hg : mget s.room.wsRooms ws with
    | none => rfl
    | some cl =>
      exact absurd (hinv.usedRoom ws (by rw [hg]; intro he; exact Option.noConfusion he))
        hfresh
  have hpend : ∀ t, t ∈ s.pending → ¬ t.owner = ws := by
    intro t ht he
    exact hfresh (he ▸ hinv.usedTimer t ht)
  unfold addUser
  dsimp only
  refine ⟨joinFold_regWF ws chatIds s.room hinv.reg, ?_, ?_, ?_, ?_, ?_, ?_,
    hinv.timerIds, hinv.timerFresh, ?_, ?_, ?_⟩
  · intro ws2 uid2 h
    rcases mget_mset_inv h with ⟨he, hv⟩ | ⟨hne, hold⟩
    · subst he
      subst hv
      exact ⟨_, mget_mset_self _ _ _, rfl, rfl⟩
    · obtain ⟨u2, hcu2, hw2, hid2⟩ := hinv.presLink ws2 uid2 hold
      have hne2 : ¬ uid2 = uid := by
        intro he
        rw [he, hcu_off] at hcu2
        exact Option.noConfusion hcu2
      exact ⟨u2, by rw [mget_mset_ne _ _ _ _ hne2]; exact hcu2, hw2, hid2⟩
  · intro uid2 u2 h
    rcases mget_mset_inv h with ⟨he, hv⟩ | ⟨hne, hold⟩
    · subst he
      subst hv
      exact ⟨rfl, mget_mset_self _ _ _⟩
    · obtain ⟨hid2, hw2⟩ := hinv.presBack uid2 u2 hold
      have hwne : ¬ u2.ws = ws := by
        intro he
        rw [he, hwsid] at hw2
        exact Option.noConfusion hw2
      exact ⟨hid2, by rw [mget_mset_ne _ _ _ _ hwne]; exact hw2⟩
  · intro uid2 u2 h
    rcases mget_mset_inv h with ⟨he, hv⟩ | ⟨hne, hold⟩
    · subst hv
      exact dedupFirst_nodup chatIds
    · exact hinv.chatNodup uid2 u2 hold
  · intro uid2 u2 h
    rcases mget_mset_inv h with ⟨he, hv⟩ | ⟨hne, hold⟩
    · subst hv
      dsimp only
      rw [joinFold_wsRoomsOf_self ws chatIds s.room]
      rw [wsRoomsOf, hroom]
      rfl
    · obtain ⟨hid2, hw2⟩ := hinv.presBack uid2 u2 hold
      have hwne : ¬ u2.ws = ws := by
        intro he
        rw [he, hwsid] at hw2
        exact Option.noConfusion hw2
      rw [wsRoomsOf, joinFold_wsr_other ws u2.ws chatIds hwne s.room]
      exact hinv.sessRooms uid2 u2 hold
  · intro w h
    by_cases hwe : w = ws
    · subst hwe
      rw [mget_mset_self]
      intro he
      exact Option.noConfusion he
    · rw [joinFold_wsr_other ws w chatIds hwe s.room] at h
      rw [mget_mset_ne _ _ _ _ hwe]
      exact hinv.regLive w h
  · intro t ht
    obtain ⟨hw3, u3, hcu3, hwu3, htt3, hmem3⟩ := hinv.timerLink t ht
    have hne3 : ¬ t.userId = uid := by
      intro he
      rw [he, hcu_off] at hcu3
      exact Option.noConfusion hcu3
    have hown : ¬ t.owner = ws := hpend t ht
    exact ⟨by rw [mget_mset_ne _ _ _ _ hown]; exact hw3,
      u3, by rw [mget_mset_ne _ _ _ _ hne3]; exact hcu3, hwu3, htt3, hmem3⟩
  · intro w h
    by_cases hwe : w = ws
    · exact List.mem_cons.mpr (Or.inl hwe)
    · rw [mget_mset_ne _ _ _ _ hwe] at h
      exact List.mem_cons.mpr (Or.inr (hinv.usedWs w h))
  · intro w h
    by_cases hwe : w = ws
    · exact List.mem_cons.mpr (Or.inl hwe)
    · rw [joinFold_wsr_other ws w chatIds hwe s.room] at h
      exact List.mem_cons.mpr (Or.inr (hinv.usedRoom w h))
  · intro t ht
    exact List.mem_cons.mpr (Or.inr (hinv.usedTimer t ht))

theorem srvInv_open (s : ServerState) (used : List Nat) (ws : Nat)
    (uid un em ro tok : String) (chats : Except HttpFailure (List String))
    (at1 : Nat) (hinv : SrvInv s used) (hfresh : ¬ ws ∈ used)
    (hoff : isUserOnline s uid = false) :
    SrvInv (handleConnection ws uid un em ro tok chats at1 s).2 (ws :: used) := by
  unfold handleConnection
  cases chats with
  | ok ids =>
    dsimp only
    rw [joinFold_state]
    have := srvInv_open_core s used ws uid un em ro tok at1 ids hinv hfresh hoff
    unfold addUser at this ⊢
    exact this
  | error e =>
    dsimp only
    rw [joinFold_state]
    have := srvInv_open_core s used ws uid un em ro tok at1 [] hinv hfresh hoff
    unfold addUser at this ⊢
    exact this

theorem srvInv_init : SrvInv initState [] := by
  refine ⟨⟨?_, ?_, ?_, ?_, ?_⟩, ?_, ?_, ?_, ?_, ?_, ?_, ?_, ?_, ?_, ?_, ?_⟩
  · intro c l h
    exact Option.noConfusion h
  · intro c l h
    exact Option.noConfusion h
  · intro w cl h
    exact Option.noConfusion h
  · intro w cl h
    exact Option.noConfusion h
  · intro c w
    simp [roomMembers, wsRoomsOf, initState, mget]
  · intro ws uid h
    exact Option.noConfusion h
  · intro uid u h
    exact Option.noConfusion h
  · intro uid u h
    exact Option.noConfusion h
  · intro uid u h
    exact Option.noConfusion h
  · intro w h
    exact absurd rfl h
  · intro t ht
    exact absurd ht (List.not_mem_nil t)
  · simp [initState]
  · intro t ht
    exact absurd ht (List.not_mem_nil t)
  · intro w h
    exact absurd rfl h
  · intro w h
    exact absurd rfl h
  · intro t ht
    exact absurd ht (List.not_mem_nil t)

/-- Every state reachable under the single-session discipline satisfies the
server invariant. -/
theorem reachableD_inv {s : ServerState} {used : List Nat}
    (h : ReachableD s used) : SrvInv s used := by
  induction h with
  | init => exact srvInv_init
  | stepOpen h1 h2 h3 ih => exact srvInv_open _ _ _ _ _ _ _ _ _ _ ih h2 h3
  | stepFrame h1 ih => exact srvInv_frame _ _ _ _ _ _ _ ih
  | stepClose h1 ih => exact srvInv_close _ _ _ ih
  | stepFire h1 h2 ih => exact srvInv_fire _ _ _ ih

theorem sOpen1_reachableD : ReachableD sOpen1 [1] :=
  ReachableD.stepOpen ReachableD.init (by decide) (by decide)

theorem sOpen12_reachableD : ReachableD sOpen12 [2, 1] :=
  ReachableD.stepOpen sOpen1_reachableD (by decide) (by decide)

theorem dual2_reachableD : ReachableD dual2 [1] :=
  ReachableD.stepFrame (ReachableD.stepOpen ReachableD.init (by decide) (by decide))

/-- C4 amended: at every observation point reachable when no two live
connections share an identity, a connection appears in a topic member set of
the Topic Registry if and only if the Session Directory resolves it to a
Session whose topic set contains that topic. -/
theorem C4_consistency_amended (s : ServerState) (used : List Nat)
    (h : ReachableD s used) (ws : Nat) (c : String) :
    ws ∈ roomMembers s.room c ↔
      ∃ u, getUserByWs s ws = some u ∧ c ∈ u.chatRooms := by
  have hinv := reachableD_inv h
  constructor
  · intro hmem
    have hlink := (hinv.reg.link c ws).mp hmem
    obtain ⟨cl, hcl, hccl⟩ := wsRoomsOf_mem hlink
    have hlive := hinv.regLive ws (by rw [hcl]; intro he; exact Option.noConfusion he)
    cases hw : mget s.pres.wsToUserId ws with
    | none => exact absurd hw hlive
    | some uid =>
      obtain ⟨u, hcu, hwsu, huid⟩ := hinv.presLink ws uid hw
      refine ⟨u, ?_, ?_⟩
      · rw [getUserByWs_of_some hw]
        exact hcu
      · have hsr := hinv.sessRooms uid u hcu
        rw [hwsu] at hsr
        rw [← hsr]
        exact hlink
  · rintro ⟨u, hu, hc⟩
    have hexists : ∃ uid, mget s.pres.wsToUserId ws = some uid ∧
        mget s.pres.connectedUsers uid = some u := by
      unfold getUserByWs at hu
      cases hw : mget s.pres.wsToUserId ws with
      | none => rw [hw] at hu; exact Option.noConfusion hu
      | some uid =>
        rw [hw] at hu
        exact ⟨uid, rfl, hu⟩
    obtain ⟨uid, hw, hcu⟩ := hexists
    obtain ⟨u2, hcu2, hwsu, huid⟩ := hinv.presLink ws uid hw
    rw [hcu] at hcu2
    cases hcu2
    have hsr := hinv.sessRooms uid u hcu
    rw [hwsu] at hsr
    apply (hinv.reg.link c ws).mpr
    rw [hsr]
    exact hc

/-- C4 amended witness at the concrete reachable state sOpen12. -/
theorem C4_consistency_amended_witness :
    1 ∈ roomMembers sOpen12.room "A" ↔
      ∃ u, getUserByWs sOpen12 1 = some u ∧ "A" ∈ u.chatRooms :=
  C4_consistency_amended sOpen12 [2, 1] sOpen12_reachableD 1 "A"

/-- C3 amended: under the single-session discipline the situation the claim
guards against is unreachable: every pending typing-expiry timer still has
its owning Session in the Session Directory, and that Session retains
membership of the timer topic, because teardown cancels the pending timers
of the Session it removes.  The callback itself performs its broadcast
unconditionally (see the counterexample for the duplicate-identity trace). -/
theorem C3_timer_owner_live_amended (s : ServerState) (used : List Nat)
    (h : ReachableD s used) (t : Timer) (ht : t ∈ s.pending) :
    ∃ u, getUserByWs s t.owner = some u ∧ t.chatId ∈ u.chatRooms := by
  have hinv := reachableD_inv h
  obtain ⟨hw, u, hcu, hwu, htt, hmem⟩ := hinv.timerLink t ht
  refine ⟨u, ?_, hmem⟩
  rw [getUserByWs_of_some hw]
  exact hcu

/-- C3 amended witness at the concrete reachable state dual2, where timer 0
is pending for the connection that scheduled it. -/
theorem C3_timer_owner_live_amended_witness :
    ∃ u, getUserByWs dual2 timer0.owner = some u ∧ timer0.chatId ∈ u.chatRooms :=
  C3_timer_owner_live_amended dual2 [1] dual2_reachableD timer0 (by decide)

theorem handleDisconnection_idem (ws : Nat) (s : ServerState) :
    handleDisconnection ws (handleDisconnection ws s).2 =
      ([], (handleDisconnection ws s).2) := by
  cases hgu : getUserByWs s ws with
  | none =>
    rw [handleDisconnection_of_none hgu, handleDisconnection_of_none hgu]
  | some u =>
    have hexists : ∃ uid, mget s.pres.wsToUserId ws = some uid ∧
        mget s.pres.connectedUsers uid = some u := by
      unfold getUserByWs at hgu
      cases hw : mget s.pres.wsToUserId ws with
      | none => rw [hw] at hgu; exact Option.noConfusion hgu
      | some uid =>
        rw [hw] at hgu
        exact ⟨uid, rfl, hgu⟩
    obtain ⟨uid, hw, hcu⟩ := hexists
    apply handleDisconnection_of_none
    apply getUserByWs_of_none
    rw [handleDisconnection_of_found hgu, removeUser_of_found hw hcu]
    dsimp only
    exact mget_mdel_self _ _

/-- C5 amended: under the single-session discipline, after the close
sequence for a connection runs once the connection is absent from every
topic member set, both of its directory indices are gone (so the identity
keyed Session is gone), and every pending timer it owned has been cancelled;
and, unconditionally, running the close sequence a second time on the same
connection performs no delivery and changes no state. -/
theorem C5_teardown_amended (s : ServerState) (used : List Nat) (ws : Nat)
    (h : ReachableD s used) :
    (∀ c, ¬ ws ∈ roomMembers (handleDisconnection ws s).2.room c) ∧
    mget (handleDisconnection ws s).2.pres.wsToUserId ws = none ∧
    getUserByWs (handleDisconnection ws s).2 ws = none ∧
    (∀ uid, mget s.pres.wsToUserId ws = some uid →
      mget (handleDisconnection ws s).2.pres.connectedUsers uid = none) ∧
    (∀ t, t ∈ (handleDisconnection ws s).2.pending → ¬ t.owner = ws) ∧
    handleDisconnection ws (handleDisconnection ws s).2 =
      ([], (handleDisconnection ws s).2) := by
  have hinv := reachableD_inv h
  have hidem := handleDisconnection_idem ws s
  cases hgu : getUserByWs s ws with
  | none =>
    have hw : mget s.pres.wsToUserId ws = none := by
      cases hw : mget s.pres.wsToUserId ws with
      | none => rfl
      | some uid =>
        rw [getUserByWs_of_some hw] at hgu
        obtain ⟨u2, hcu2, _, _⟩ := hinv.presLink ws uid hw
        rw [hgu] at hcu2
        exact Option.noConfusion hcu2
    have hstate : (handleDisconnection ws s).2 = s := by
      rw [handleDisconnection_of_none hgu]
    rw [hstate]
    refine ⟨?_, hw, hgu, ?_, ?_, hstate ▸ hidem⟩
    · intro c hmem
      have hlink := (hinv.reg.link c ws).mp hmem
      obtain ⟨cl, hcl, _⟩ := wsRoomsOf_mem hlink
      exact hinv.regLive ws (by rw [hcl]; intro he; exact Option.noConfusion he) hw
    · intro uid huid
      rw [hw] at huid
      exact Option.noConfusion huid
    · intro t ht hown
      obtain ⟨hw3, _⟩ := hinv.timerLink t ht
      rw [hown, hw] at hw3
      exact Option.noConfusion hw3
  | some u =>
    have hexists : ∃ uid, mget s.pres.wsToUserId ws = some uid ∧
        mget s.pres.connectedUsers uid = some u := by
      unfold getUserByWs at hgu
      cases hw : mget s.pres.wsToUserId ws with
      | none => rw [hw] at hgu; exact Option.noConfusion hgu
      | some uid =>
        rw [hw] at hgu
        exact ⟨uid, rfl, hgu⟩
    obtain ⟨uid, hw, hcu⟩ := hexists
    have hstate : (handleDisconnection ws s).2 =
        { room := leaveAllRooms ws s.room
          pres := ⟨mdel s.pres.connectedUsers uid, mdel s.pres.wsToUserId ws⟩
          pending := (mvalues u.typingTimers).foldl clearTimeout s.pending
          nextTimerId := s.nextTimerId } := by
      rw [handleDisconnection_of_found hgu, removeUser_of_found hw hcu]
    rw [hstate]
    refine ⟨?_, mget_mdel_self _ _, ?_, ?_, ?_, hstate ▸ hidem⟩
    · intro c
      exact leaveAll_no_ws ws s.room hinv.reg c
    · exact getUserByWs_of_none (mget_mdel_self _ _)
    · intro uid2 huid2
      rw [hw] at huid2
      cases huid2
      exact mget_mdel_self _ _
    · intro t ht hown
      obtain ⟨htp, hids⟩ := foldlClear_mem (mvalues u.typingTimers) s.pending t ht
      obtain ⟨hw3, u3, hcu3, hwu3, htt3, hmem3⟩ := hinv.timerLink t htp
      rw [hown, hw] at hw3
      cases hw3
      rw [hcu] at hcu3
      cases hcu3
      exact hids (mget_mem_values htt3)
  
/-- C5 amended witness at the concrete reachable state sOpen12 for the close
of connection 1. -/
theorem C5_teardown_amended_witness :
    (∀ c, ¬ 1 ∈ roomMembers (handleDisconnection 1 sOpen12).2.room c) ∧
    mget (handleDisconnection 1 sOpen12).2.pres.wsToUserId 1 = none ∧
    getUserByWs (handleDisconnection 1 sOpen12).2 1 = none ∧
    (∀ uid, mget sOpen12.pres.wsToUserId 1 = some uid →
      mget (handleDisconnection 1 sOpen12).2.pres.connectedUsers uid = none) ∧
    (∀ t, t ∈ (handleDisconnection 1 sOpen12).2.pending → ¬ t.owner = 1) ∧
    handleDisconnection 1 (handleDisconnection 1 sOpen12).2 =
      ([], (handleDisconnection 1 sOpen12).2) :=
  C5_teardown_amended sOpen12 [2, 1] 1 sOpen12_reachableD

/-- C9 witness: the registry of the concrete reachable state sOpen12 is well
formed, connection 1 is a member of topic A and not a member of topic B, and
both redundant operations leave the registry unchanged. -/
theorem C9_join_leave_idempotent_witness :
    joinRoom "A" 1 sOpen12.room = sOpen12.room ∧
    leaveRoom "B" 1 sOpen12.room = sOpen12.room :=
  ⟨(C9_join_leave_idempotent "A" 1 sOpen12.room
      (reachableD_inv sOpen12_reachableD).reg).1 (by decide),
   (C9_join_leave_idempotent "B" 1 sOpen12.room
      (reachableD_inv sOpen12_reachableD).reg).2 (by decide)⟩
